import Mathlib

/-!
Verification of the multi-tier cache subsystem of the Eclipse-Market
repository.  The development shallowly embeds the two cache-manager
variants found in the source tree:

* `DataCache` models `src/src-tauri/src/data/cache_manager.rs` — the
  memory+disk ("L1/L2") variant built on a weighted in-memory cache with
  an eviction listener, a per-category disk keyspace, and per-category
  atomic statistics.
* `CoreCache` models `src/src-tauri/src/core/cache_manager.rs` — the
  memory-only variant with validated TTL configuration, an injectable
  clock, and explicit LRU eviction.

Modelling conventions:
* Machine `u64`/`usize` counters become `Nat`; the byte counter of the
  data variant becomes `Int` so that underflow ("going negative") is
  expressible, with the source's saturating subtraction modelled
  faithfully.
* Wall-clock time (`now_secs`, `TimeProvider::now`) is passed as an
  explicit `Nat` argument.
* Serde serialization is modelled by an explicit encode function
  `α → List Nat` and decode function `List Nat → Option α`; payloads
  are byte lists.
* The in-memory cache library used by the data variant (a weighted
  cache with per-entry TTL and an eviction listener) is modelled as an
  association list of entries stamped with insertion time and TTL; the
  eviction listener is modelled as firing synchronously when the
  library removes an entry because of capacity eviction or TTL expiry,
  the two causes the surrounding code does not handle inline.
* Disk-tier I/O and config-file I/O cannot themselves be embedded; the
  contents of the disk keyspaces and of the TTL config file are carried
  in the state, and the success/failure of an individual offloaded
  write is an explicit `Bool` parameter of the operation that awaits it.
-/

namespace EclipseMarket

/-- Lookup in an association list keyed by strings (first match). -/
def alookup (k : String) : List (String × α) → Option α
  | [] => none
  | p :: rest => if p.1 = k then some p.2 else alookup k rest

/-- Remove every pair with the given key from an association list. -/
def aremove (k : String) : List (String × α) → List (String × α)
  | [] => []
  | p :: rest => if p.1 = k then aremove k rest else p :: aremove k rest

/-- Insert-or-replace a binding in an association list. -/
def aset (k : String) (v : α) (l : List (String × α)) : List (String × α) :=
  (k, v) :: aremove k l

/-- Insert a string into a duplicate-free membership list. -/
def sinsert (k : String) (l : List String) : List String :=
  if k ∈ l then l else k :: l

/-- Remove a string from a membership list. -/
def sremove (k : String) : List String → List String
  | [] => []
  | x :: rest => if x = k then sremove k rest else x :: sremove k rest

/-- The keys of an association list. -/
def akeys (l : List (String × α)) : List String :=
  l.map Prod.fst

namespace DataCache

/-- `CacheType` from `src/src-tauri/src/data/cache_manager.rs`: the closed
set of four cache categories. -/
inductive CacheType where
  | price
  | token_metadata
  | historical
  | user_settings
deriving DecidableEq, Repr

/-- `CacheType::ALL`. -/
def CacheType.ALL : List CacheType :=
  [CacheType.price, CacheType.token_metadata, CacheType.historical,
   CacheType.user_settings]

/-- `CacheType::as_str`. -/
def CacheType.as_str : CacheType → String
  | CacheType.price => "price"
  | CacheType.token_metadata => "token_metadata"
  | CacheType.historical => "historical"
  | CacheType.user_settings => "user_settings"

/-- `CacheTTLConfig`: one TTL in seconds (or `None` = unbounded) per
category. -/
structure CacheTTLConfig where
  price : Option Nat
  token_metadata : Option Nat
  historical : Option Nat
  user_settings : Option Nat
deriving DecidableEq, Repr

/-- `CacheTTLConfig::default` (the fallback literal in the source; the
bundled `config/cache_ttl.json` is not present under `src`, so the
fallback values are the defaults). -/
def CacheTTLConfig.default : CacheTTLConfig :=
  { price := some 1, token_metadata := some 3600,
    historical := some 86400, user_settings := none }

/-- `CacheTTLConfig::ttl_for` (seconds). -/
def CacheTTLConfig.ttl_for (c : CacheTTLConfig) : CacheType → Option Nat
  | CacheType.price => c.price
  | CacheType.token_metadata => c.token_metadata
  | CacheType.historical => c.historical
  | CacheType.user_settings => c.user_settings

/-- `CacheTypeStats`: the per-category atomic counters.  The byte counter
is `Int` so that underflow of the `u64` counter is expressible; it is
non-negative in every reachable state, which is part of what is proved. -/
structure CacheTypeStats where
  hits : Nat
  misses : Nat
  evictions : Nat
  bytes : Int
deriving DecidableEq, Repr

/-- `CacheTypeStats::reset`. -/
def CacheTypeStats.reset : CacheTypeStats :=
  { hits := 0, misses := 0, evictions := 0, bytes := 0 }

/-- `CacheValue`: payload bytes plus cached size. -/
structure CacheValue where
  data : List Nat
  size : Nat
deriving DecidableEq, Repr

/-- `CacheValue::new`. -/
def CacheValue.new (bytes : List Nat) : CacheValue :=
  { data := bytes, size := bytes.length }

/-- A resident in-memory entry: the value plus the insertion time and the
TTL it was stamped with (model of the library's `insert_with_ttl`). -/
structure MemEntry where
  value : CacheValue
  insertedAt : Nat
  ttl : Option Nat
deriving DecidableEq, Repr

/-- An entry is visible at time `now` when its TTL has not elapsed. -/
def MemEntry.visible (e : MemEntry) (now : Nat) : Bool :=
  match e.ttl with
  | none => true
  | some d => now < e.insertedAt + d

/-- `DiskRecord`: payload bytes plus optional absolute expiry epoch
(seconds). -/
structure DiskRecord where
  value : List Nat
  expires_at : Option Nat
deriving DecidableEq, Repr

/-- `CacheTypeSummary`. `hit_rate` is modelled over `ℚ` in place of
`f64`. -/
structure CacheTypeSummary where
  cache_type : String
  hits : Nat
  misses : Nat
  hit_rate : ℚ
  evictions : Nat
  entries : Nat
  size_bytes : Int
deriving DecidableEq, Repr

/-- `CacheWarmingProgress`. -/
structure CacheWarmingProgress where
  started_at : Option Nat
  completed_at : Option Nat
  total_items : Nat
  processed_items : Nat
  in_progress : Bool
deriving DecidableEq, Repr

/-- `CacheWarmingProgress::default`. -/
def CacheWarmingProgress.default : CacheWarmingProgress :=
  { started_at := none, completed_at := none, total_items := 0,
    processed_items := 0, in_progress := false }

/-- `CacheStatistics`. -/
structure CacheStatistics where
  total_entries : Nat
  total_size_bytes : Int
  total_hits : Nat
  total_misses : Nat
  total_hit_rate : ℚ
  total_evictions : Nat
  per_type : List CacheTypeSummary
  warming : CacheWarmingProgress
  ttl_config : CacheTTLConfig
deriving DecidableEq, Repr

/-- `WarmRequest`: the payload is the serialized form of the optional
literal JSON value. -/
structure WarmRequest where
  key : String
  cache_type : CacheType
  value : Option (List Nat)
deriving DecidableEq, Repr

/-- `CacheLayer`: the per-category store.  `mem` models the weighted
in-memory cache (entries stamped with insert time and TTL), `hasDisk`
and `disk` model the optional durable keyspace and its contents, and
`keys`/`sizes` are the bookkeeping structures the source maintains next
to the map. -/
structure CacheLayer where
  mem : List (String × MemEntry)
  hasDisk : Bool
  disk : List (String × DiskRecord)
  stats : CacheTypeStats
  keys : List String
  sizes : List (String × Nat)
deriving DecidableEq, Repr

/-- `saturating_sub_atomic`: the CAS loop returns immediately when the
counter is zero or the amount is zero, and otherwise stores the
saturating difference. -/
def saturating_sub_atomic (target : Int) (amount : Nat) : Int :=
  if amount = 0 then target
  else if target = 0 then target
  else max 0 (target - amount)

/-- The body of the eviction listener installed in `CacheLayer::new`:
bump the eviction counter, saturating-subtract the removed entry's size,
and drop the key from the `keys` and `sizes` bookkeeping.  It is
modelled as running synchronously when the cache library removes an
entry for capacity or TTL-expiry reasons. -/
def CacheLayer.listenerFire (l : CacheLayer) (k : String) (removedSize : Nat) :
    CacheLayer :=
  { l with
    stats := { l.stats with
                evictions := l.stats.evictions + 1,
                bytes := saturating_sub_atomic l.stats.bytes removedSize },
    keys := sremove k l.keys,
    sizes := aremove k l.sizes }

/-- `CacheLayer::insert`.  The byte-counter update is
`fetch_add`/`fetch_sub` of the signed delta between the new and the
previous size of the key. -/
def CacheLayer.insert (l : CacheLayer) (k : String) (v : CacheValue)
    (ttl : Option Nat) (now : Nat) : CacheLayer :=
  let prev : Option Nat := alookup k l.sizes
  let delta : Int := (v.size : Int) - ((prev.getD 0 : Nat) : Int)
  { l with
    mem := aset k { value := v, insertedAt := now, ttl := ttl } l.mem,
    keys := sinsert k l.keys,
    sizes := aset k v.size l.sizes,
    stats := { l.stats with bytes := l.stats.bytes + delta } }

/-- `CacheLayer::get` (the in-memory tier only): a resident unexpired
entry is returned unchanged; an entry whose TTL has elapsed is removed
by the cache library, which fires the eviction listener. -/
def CacheLayer.getMem (l : CacheLayer) (k : String) (now : Nat) :
    Option CacheValue × CacheLayer :=
  match alookup k l.mem with
  | none => (none, l)
  | some e =>
    if e.visible now then (some e.value, l)
    else (none, CacheLayer.listenerFire { l with mem := aremove k l.mem } k e.value.size)

/-- `CacheLayer::invalidate`: drop the bookkeeping, saturating-subtract
the recorded size, remove from memory, and issue the disk delete. -/
def CacheLayer.invalidate (l : CacheLayer) (k : String) : CacheLayer :=
  let removed : Nat := (alookup k l.sizes).getD 0
  { l with
    sizes := aremove k l.sizes,
    stats := { l.stats with
                bytes := if removed > 0
                  then saturating_sub_atomic l.stats.bytes removed
                  else l.stats.bytes },
    keys := sremove k l.keys,
    mem := aremove k l.mem,
    disk := if l.hasDisk then aremove k l.disk else l.disk }

/-- `CacheLayer::clear`. -/
def CacheLayer.clear (l : CacheLayer) : CacheLayer :=
  { l with
    mem := [],
    keys := [],
    sizes := [],
    stats := CacheTypeStats.reset,
    disk := if l.hasDisk then [] else l.disk }

/-- Capacity eviction performed by the cache library on some resident
key, firing the eviction listener (the library chooses the victim; the
choice is a parameter here). -/
def CacheLayer.evict (l : CacheLayer) (k : String) : CacheLayer :=
  match alookup k l.mem with
  | none => l
  | some e => CacheLayer.listenerFire { l with mem := aremove k l.mem } k e.value.size

/-- `CacheLayer::entry_count`. -/
def CacheLayer.entry_count (l : CacheLayer) : Nat :=
  l.mem.length

/-- `CacheLayer::snapshot`. -/
def CacheLayer.snapshot (l : CacheLayer) (ct : CacheType) : CacheTypeSummary :=
  let hits := l.stats.hits
  let misses := l.stats.misses
  let total := hits + misses
  { cache_type := ct.as_str,
    hits := hits,
    misses := misses,
    hit_rate := if total > 0 then ((hits : ℚ) / (total : ℚ)) * 100 else 0,
    evictions := l.stats.evictions,
    entries := l.entry_count,
    size_bytes := l.stats.bytes }

/-- Character-wise prefix test, model of Rust `str::starts_with`. -/
def charListPfx : List Char → List Char → Bool
  | [], _ => true
  | _ :: _, [] => false
  | c :: cs, d :: ds => if c = d then charListPfx cs ds else false

/-- Model of Rust `str::starts_with` on strings. -/
def strStartsWith (pfx s : String) : Bool :=
  charListPfx pfx.data s.data

/-- `CacheLayer::keys_with_prefix` (renamed): a snapshot of the resident
keys, filtered by literal string prefix; memory bookkeeping only, no
durable-tier scan. -/
def CacheLayer.keysWithPfx (l : CacheLayer) (pfx : String) : List String :=
  l.keys.filter (fun k => strStartsWith pfx k)

/-- An empty layer as built by `CacheLayer::new` (counters zero, empty
tables, disk tree present iff the L2 tier is enabled). -/
def CacheLayer.init (hasDisk : Bool) : CacheLayer :=
  { mem := [], hasDisk := hasDisk, disk := [],
    stats := CacheTypeStats.reset, keys := [], sizes := [] }

/-- `CacheManager`: the four layers (one per category, all created by
`CacheManager::new`), the TTL config and the modelled contents of its
config file, the warming progress, and the per-key usage counters. -/
structure CacheManager where
  layers : CacheType → CacheLayer
  ttl_config : CacheTTLConfig
  cfgFile : Option CacheTTLConfig
  warming_state : CacheWarmingProgress
  usage_counts : CacheType → List (String × Nat)

/-- Update one category's layer. -/
def CacheManager.withLayer (m : CacheManager) (ct : CacheType)
    (l : CacheLayer) : CacheManager :=
  { m with layers := fun ct' => if ct' = ct then l else m.layers ct' }

/-- `CacheManager::record_usage`. -/
def CacheManager.record_usage (m : CacheManager) (ct : CacheType)
    (k : String) : CacheManager :=
  { m with
    usage_counts := fun ct' =>
      if ct' = ct then
        aset k ((alookup k (m.usage_counts ct)).getD 0 + 1) (m.usage_counts ct)
      else m.usage_counts ct' }

/-- `CacheManager::new` with a fresh data directory: the TTL config file
is absent, so the defaults are written; all four layers are created,
with a disk tree exactly when the L2 tier is enabled. -/
def CacheManager.init (enableL2 : Bool) : CacheManager :=
  { layers := fun _ => CacheLayer.init enableL2,
    ttl_config := CacheTTLConfig.default,
    cfgFile := some CacheTTLConfig.default,
    warming_state := CacheWarmingProgress.default,
    usage_counts := fun _ => [] }

/-- `CacheManager::get` at the byte level (before serde decoding): memory
hit counts as a hit; a memory miss counts as a miss and consults the
disk tier when enabled, deleting an expired record or promoting a live
one back into memory (which counts as a hit).  Disk reads are modelled
as succeeding; decoding of the typed value happens after this function
(see `CacheManager.get`). -/
def CacheManager.getBytes (m : CacheManager) (ct : CacheType) (k : String)
    (now : Nat) : Option (List Nat) × CacheManager :=
  let layer := m.layers ct
  match CacheLayer.getMem layer k now with
  | (some v, layer1) =>
    let layer2 := { layer1 with stats := { layer1.stats with hits := layer1.stats.hits + 1 } }
    (some v.data, (m.withLayer ct layer2).record_usage ct k)
  | (none, layer1) =>
    let layer2 := { layer1 with stats := { layer1.stats with misses := layer1.stats.misses + 1 } }
    if layer2.hasDisk then
      match alookup k layer2.disk with
      | some record =>
        match record.expires_at with
        | some expiry =>
          if expiry ≤ now then
            (none, m.withLayer ct { layer2 with disk := aremove k layer2.disk })
          else
            let cv := CacheValue.new record.value
            let layer3 := layer2.insert k cv (m.ttl_config.ttl_for ct) now
            let layer4 := { layer3 with stats := { layer3.stats with hits := layer3.stats.hits + 1 } }
            (some record.value, (m.withLayer ct layer4).record_usage ct k)
        | none =>
          let cv := CacheValue.new record.value
          let layer3 := layer2.insert k cv (m.ttl_config.ttl_for ct) now
          let layer4 := { layer3 with stats := { layer3.stats with hits := layer3.stats.hits + 1 } }
          (some record.value, (m.withLayer ct layer4).record_usage ct k)
      | none => (none, m.withLayer ct layer2)
    else (none, m.withLayer ct layer2)

/-- `CacheManager::get<T>`: the byte-level read followed by serde
decoding; a decode failure is a typed error, never silent absence. -/
def CacheManager.get (m : CacheManager) (dec : List Nat → Option α)
    (ct : CacheType) (k : String) (now : Nat) :
    Except String (Option α) × CacheManager :=
  match m.getBytes ct k now with
  | (none, m') => (Except.ok none, m')
  | (some bytes, m') =>
    match dec bytes with
    | some t => (Except.ok (some t), m')
    | none => (Except.error "Failed to deserialize cached value", m')

/-- `CacheManager::set<T>` at the byte level (after serde encoding):
write to memory with the current TTL, record usage, then perform the
durable write when the disk tier is enabled.  `diskWriteOk` is the
outcome of the awaited offloaded disk write; when it fails the call
returns the error (the memory write has already happened). -/
def CacheManager.setBytes (m : CacheManager) (ct : CacheType) (k : String)
    (bytes : List Nat) (now : Nat) (diskWriteOk : Bool) :
    Except String Unit × CacheManager :=
  let layer := m.layers ct
  let cv := CacheValue.new bytes
  let ttl := m.ttl_config.ttl_for ct
  let layer1 := layer.insert k cv ttl now
  let m1 := (m.withLayer ct layer1).record_usage ct k
  if layer1.hasDisk then
    let record : DiskRecord := { value := bytes, expires_at := ttl.map (fun d => now + d) }
    if diskWriteOk then
      (Except.ok (),
       m1.withLayer ct { (m1.layers ct) with disk := aset k record (m1.layers ct).disk })
    else (Except.error "Disk cache write error", m1)
  else (Except.ok (), m1)

/-- `CacheManager::set<T>`: serde encoding followed by the byte-level
write. -/
def CacheManager.set (m : CacheManager) (enc : α → List Nat) (ct : CacheType)
    (k : String) (v : α) (now : Nat) (diskWriteOk : Bool) :
    Except String Unit × CacheManager :=
  m.setBytes ct k (enc v) now diskWriteOk

/-- `CacheManager::invalidate`. -/
def CacheManager.invalidate (m : CacheManager) (ct : CacheType) (k : String) :
    CacheManager :=
  m.withLayer ct ((m.layers ct).invalidate k)

/-- `CacheManager::invalidate_many`. -/
def CacheManager.invalidate_many (m : CacheManager) (ct : CacheType)
    (ks : List String) : CacheManager :=
  m.withLayer ct (ks.foldl (fun l k => l.invalidate k) (m.layers ct))

/-- `CacheManager::invalidate_by_prefix` (renamed): snapshot the matching
resident keys, then invalidate each. -/
def CacheManager.invalidateByPfx (m : CacheManager) (ct : CacheType)
    (pfx : String) : CacheManager :=
  let ks := (m.layers ct).keysWithPfx pfx
  m.withLayer ct (ks.foldl (fun l k => l.invalidate k) (m.layers ct))

/-- `CacheManager::clear_cache_type`. -/
def CacheManager.clear_cache_type (m : CacheManager) (ct : CacheType) :
    CacheManager :=
  let m1 := m.withLayer ct ((m.layers ct).clear)
  { m1 with usage_counts := fun ct' => if ct' = ct then [] else m1.usage_counts ct' }

/-- `CacheManager::clear_all`. -/
def CacheManager.clear_all (m : CacheManager) : CacheManager :=
  { m with
    layers := fun ct => (m.layers ct).clear,
    usage_counts := fun _ => [] }

/-- `CacheManager::statistics`: one snapshot per category in
`CacheType::ALL` order, plus the aggregate. -/
def CacheManager.statistics (m : CacheManager) : CacheStatistics :=
  let per_type := CacheType.ALL.map (fun ct => (m.layers ct).snapshot ct)
  let total_hits := (per_type.map (fun s => s.hits)).sum
  let total_misses := (per_type.map (fun s => s.misses)).sum
  let total_evictions := (per_type.map (fun s => s.evictions)).sum
  let total_entries := (per_type.map (fun s => s.entries)).sum
  let total_size := (per_type.map (fun s => s.size_bytes)).sum
  { total_entries := total_entries,
    total_size_bytes := total_size,
    total_hits := total_hits,
    total_misses := total_misses,
    total_hit_rate :=
      if total_hits + total_misses > 0
      then ((total_hits : ℚ) / ((total_hits + total_misses : Nat) : ℚ)) * 100
      else 0,
    total_evictions := total_evictions,
    per_type := per_type,
    warming := m.warming_state,
    ttl_config := m.ttl_config }

/-- The placeholder payload synthesized by `warm_cache` when a request
carries no literal value (serialized form of the `prewarmed` JSON
object). -/
def placeholderBytes (k : String) (ct : CacheType) : List Nat :=
  (("prewarmed:" ++ k ++ ":" ++ ct.as_str).toList).map Char.toNat

/-- The loop body of `CacheManager::warm_cache`: process each request in
order, propagating a failed `set` immediately (the `?` operator), and
update `processed_items` after every successful item; afterwards flip
`in_progress` off and stamp `completed_at`. -/
def CacheManager.warmLoop (m : CacheManager) (reqs : List WarmRequest)
    (idx : Nat) (now : Nat) (diskOk : Nat → Bool) :
    Except String Unit × CacheManager :=
  match reqs with
  | [] =>
    (Except.ok (),
     { m with warming_state := { m.warming_state with
         in_progress := false, completed_at := some now } })
  | r :: rest =>
    let payload := r.value.getD (placeholderBytes r.key r.cache_type)
    match m.setBytes r.cache_type r.key payload now (diskOk idx) with
    | (Except.error e, m') => (Except.error e, m')
    | (Except.ok _, m') =>
      let m'' := { m' with warming_state := { m'.warming_state with
                     processed_items := idx + 1 } }
      m''.warmLoop rest (idx + 1) now diskOk

/-- `CacheManager::warm_cache`: an empty request list returns without
touching the warming state; otherwise the progress tracker is reset and
the requests are processed sequentially. -/
def CacheManager.warm_cache (m : CacheManager) (reqs : List WarmRequest)
    (now : Nat) (diskOk : Nat → Bool) : Except String Unit × CacheManager :=
  if reqs.isEmpty then (Except.ok (), m)
  else
    let m1 := { m with warming_state :=
      { started_at := some now, completed_at := none,
        total_items := reqs.length, processed_items := 0, in_progress := true } }
    m1.warmLoop reqs 0 now diskOk

/-- `CacheManager::update_ttl_config` of the data variant: the in-memory
config is swapped first, then the new config is serialized and written
to the config file; `fileWriteOk` is the outcome of that write.  No
validation is performed and resident entries are not re-stamped. -/
def CacheManager.update_ttl_config (m : CacheManager) (config : CacheTTLConfig)
    (fileWriteOk : Bool) : Except String Unit × CacheManager :=
  let m1 := { m with ttl_config := config }
  if fileWriteOk then (Except.ok (), { m1 with cfgFile := some config })
  else (Except.error "Failed to persist TTL configuration", m1)

/-- The public operations of the data-variant manager, as state
transformers; parameters of environmental origin (current time, outcome
of awaited disk writes) are carried in the operation. -/
inductive MOp where
  | set (ct : CacheType) (k : String) (bytes : List Nat) (now : Nat) (diskOk : Bool)
  | get (ct : CacheType) (k : String) (now : Nat)
  | invalidate (ct : CacheType) (k : String)
  | invalidateMany (ct : CacheType) (ks : List String)
  | invalidateByPfx (ct : CacheType) (pfx : String)
  | clearType (ct : CacheType)
  | clearAll
  | evict (ct : CacheType) (k : String)
  | warm (reqs : List WarmRequest) (now : Nat) (diskOk : Nat → Bool)
  | updateTTL (cfg : CacheTTLConfig) (fileOk : Bool)

/-- The state effect of one manager operation. -/
def mstep (m : CacheManager) : MOp → CacheManager
  | MOp.set ct k bytes now diskOk => (m.setBytes ct k bytes now diskOk).2
  | MOp.get ct k now => (m.getBytes ct k now).2
  | MOp.invalidate ct k => m.invalidate ct k
  | MOp.invalidateMany ct ks => m.invalidate_many ct ks
  | MOp.invalidateByPfx ct pfx => m.invalidateByPfx ct pfx
  | MOp.clearType ct => m.clear_cache_type ct
  | MOp.clearAll => m.clear_all
  | MOp.evict ct k => m.withLayer ct ((m.layers ct).evict k)
  | MOp.warm reqs now diskOk => (m.warm_cache reqs now diskOk).2
  | MOp.updateTTL cfg fileOk => (m.update_ttl_config cfg fileOk).2

/-- The state reached from a fresh manager by a sequence of operations. -/
def run (enableL2 : Bool) (ops : List MOp) : CacheManager :=
  ops.foldl mstep (CacheManager.init enableL2)

/-- The sum of the sizes of the entries resident in a memory tier. -/
def memBytesZ (mem : List (String × MemEntry)) : Int :=
  (mem.map (fun p => (p.2.value.size : Int))).sum

/-- The bookkeeping invariant of one layer: the memory table has no
duplicate keys, the `sizes` map mirrors the sizes of the resident
entries, and the byte counter equals the sum of the resident entry
sizes. -/
def LayerInv (l : CacheLayer) : Prop :=
  (akeys l.mem).Nodup ∧
    (∀ k, alookup k l.sizes = (alookup k l.mem).map (fun e => e.value.size)) ∧
    l.stats.bytes = memBytesZ l.mem

/-- The manager invariant: every category's layer satisfies its
bookkeeping invariant. -/
def MInv (m : CacheManager) : Prop :=
  ∀ ct, LayerInv (m.layers ct)

end DataCache

namespace CoreCache

/-- `MIN_TTL_MS` from `src/src-tauri/src/core/cache_manager.rs`. -/
def MIN_TTL_MS : Nat := 100

/-- `MAX_TTL_MS`: seven days in milliseconds. -/
def MAX_TTL_MS : Nat := 7 * 24 * 60 * 60 * 1000

/-- `CacheType` of the core (memory-only) variant. -/
inductive CacheType where
  | tokenPrice
  | tokenInfo
  | marketData
  | topCoins
  | trendingCoins
  | userData
deriving DecidableEq, Repr

/-- The `format!("{:?}", cache_type)` key used for the per-type
statistics map. -/
def CacheType.debugStr : CacheType → String
  | CacheType.tokenPrice => "TokenPrice"
  | CacheType.tokenInfo => "TokenInfo"
  | CacheType.marketData => "MarketData"
  | CacheType.topCoins => "TopCoins"
  | CacheType.trendingCoins => "TrendingCoins"
  | CacheType.userData => "UserData"

/-- `CacheEntry` of the core variant; the JSON payload is carried in
serialized form, so `size_bytes` is its length. -/
structure CacheEntry where
  key : String
  data : List Nat
  created_at_ms : Nat
  access_count : Nat
  last_accessed_ms : Nat
  size_bytes : Nat
  cache_type : CacheType
  ttl_ms : Nat
deriving DecidableEq, Repr

/-- `CacheTtlConfig`: TTLs in milliseconds. -/
structure CacheTtlConfig where
  prices : Nat
  metadata : Nat
  history : Nat
deriving DecidableEq, Repr

/-- `CacheTtlConfig::default`. -/
def CacheTtlConfig.default : CacheTtlConfig :=
  { prices := 1000, metadata := 3600000, history := 86400000 }

/-- `CacheManager::validate_ttl_config`: each named TTL is checked
against the absolute bounds, in declaration order. -/
def validate_ttl_config (c : CacheTtlConfig) : Except String Unit :=
  if c.prices < MIN_TTL_MS then Except.error "TTL for prices must be at least 100ms"
  else if c.prices > MAX_TTL_MS then Except.error "TTL for prices exceeds maximum"
  else if c.metadata < MIN_TTL_MS then Except.error "TTL for metadata must be at least 100ms"
  else if c.metadata > MAX_TTL_MS then Except.error "TTL for metadata exceeds maximum"
  else if c.history < MIN_TTL_MS then Except.error "TTL for history must be at least 100ms"
  else if c.history > MAX_TTL_MS then Except.error "TTL for history exceeds maximum"
  else Except.ok ()

/-- `CacheManager::ttl_for_type`. -/
def ttl_for_type (ct : CacheType) (c : CacheTtlConfig) : Nat :=
  match ct with
  | CacheType.tokenPrice => c.prices
  | CacheType.tokenInfo => c.metadata
  | CacheType.marketData => c.metadata
  | CacheType.topCoins => c.metadata
  | CacheType.trendingCoins => c.metadata
  | CacheType.userData => c.history

/-- `TypeStatistics`. -/
structure TypeStatistics where
  hits : Nat
  misses : Nat
  hit_rate : ℚ
  entries : Nat
  size_bytes : Nat
deriving DecidableEq, Repr

/-- A fresh `TypeStatistics` as produced by the `or_insert` default. -/
def TypeStatistics.fresh : TypeStatistics :=
  { hits := 0, misses := 0, hit_rate := 0, entries := 0, size_bytes := 0 }

/-- `CacheStatistics` of the core variant. -/
structure CacheStatistics where
  total_hits : Nat
  total_misses : Nat
  hit_rate : ℚ
  total_evictions : Nat
  total_entries : Nat
  total_size_bytes : Nat
  per_type_stats : List (String × TypeStatistics)
  last_warmed : Option Nat
deriving DecidableEq, Repr

/-- The all-zero statistics installed by the constructor. -/
def CacheStatistics.initial : CacheStatistics :=
  { total_hits := 0, total_misses := 0, hit_rate := 0, total_evictions := 0,
    total_entries := 0, total_size_bytes := 0, per_type_stats := [],
    last_warmed := none }

/-- `CacheManager` of the core variant; the TTL config file's contents
are carried in `cfgFile`, and the injectable clock is an explicit time
argument on the operations. -/
structure CacheManager where
  cache : List (String × CacheEntry)
  stats : CacheStatistics
  ttl_config : CacheTtlConfig
  cfgFile : Option CacheTtlConfig
  max_size_bytes : Nat
  max_entries : Nat
deriving DecidableEq, Repr

/-- A manager as built by `CacheManager::new(max_size_mb, max_entries)`
(via `with_time_provider_and_path`) over a fresh config path: defaults
loaded and written, and the byte cap scaled from mebibytes as
`max_size_mb * 1024 * 1024`. -/
def CacheManager.init (max_size_mb max_entries : Nat) : CacheManager :=
  { cache := [],
    stats := CacheStatistics.initial,
    ttl_config := CacheTtlConfig.default,
    cfgFile := some CacheTtlConfig.default,
    max_size_bytes := max_size_mb * 1024 * 1024,
    max_entries := max_entries }

/-- Decrement a per-type statistics entry when an entry of that type
leaves the cache (`get_mut` on the map; absent type key is a no-op).
Subtractions saturate, matching `usize::saturating_sub`. -/
def decPerType (ps : List (String × TypeStatistics)) (ct : CacheType)
    (sz : Nat) : List (String × TypeStatistics) :=
  match alookup ct.debugStr ps with
  | some ts =>
    aset ct.debugStr
      { ts with entries := ts.entries - 1, size_bytes := ts.size_bytes - sz } ps
  | none => ps

/-- Increment a per-type statistics entry on insert (`entry(..).or_insert`
then bump `entries` and `size_bytes`). -/
def incPerType (ps : List (String × TypeStatistics)) (ct : CacheType)
    (sz : Nat) : List (String × TypeStatistics) :=
  let ts := (alookup ct.debugStr ps).getD TypeStatistics.fresh
  aset ct.debugStr
    { ts with entries := ts.entries + 1, size_bytes := ts.size_bytes + sz } ps

/-- `Iterator::min_by_key` over `last_accessed_ms`: the first entry (in
iteration order) with the minimal last-access time. -/
def minByLastAccess (l : List (String × CacheEntry)) :
    Option (String × CacheEntry) :=
  l.foldl
    (fun acc p =>
      match acc with
      | none => some p
      | some q => if p.2.last_accessed_ms < q.2.last_accessed_ms then some p else some q)
    none

/-- `CacheManager::evict_lru`: remove the least-recently-accessed entry
and adjust the counters. -/
def CacheManager.evict_lru (m : CacheManager) : CacheManager :=
  match minByLastAccess m.cache with
  | none => m
  | some q =>
    let cache' := aremove q.1 m.cache
    { m with
      cache := cache',
      stats := { m.stats with
        total_evictions := m.stats.total_evictions + 1,
        total_size_bytes := m.stats.total_size_bytes - q.2.size_bytes,
        total_entries := cache'.length,
        per_type_stats := decPerType m.stats.per_type_stats q.2.cache_type q.2.size_bytes } }

/-- `CacheManager::set`: compute the TTL and the serialized size, evict
the LRU entry when the pre-insert figures exceed a cap, credit back a
replaced same-key entry, insert the fresh entry, and bump the totals. -/
def CacheManager.set (m : CacheManager) (key : String) (data : List Nat)
    (ct : CacheType) (now_ms : Nat) : CacheManager :=
  let ttl_ms := ttl_for_type ct m.ttl_config
  let size := data.length
  let m1 :=
    if m.stats.total_size_bytes + size > m.max_size_bytes
        ∨ m.cache.length ≥ m.max_entries
    then m.evict_lru else m
  let m2 :=
    match alookup key m1.cache with
    | some old =>
      { m1 with stats := { m1.stats with
          total_size_bytes := m1.stats.total_size_bytes - old.size_bytes,
          per_type_stats := decPerType m1.stats.per_type_stats old.cache_type old.size_bytes } }
    | none => m1
  let entry : CacheEntry :=
    { key := key, data := data, created_at_ms := now_ms, access_count := 0,
      last_accessed_ms := now_ms, size_bytes := size, cache_type := ct,
      ttl_ms := ttl_ms }
  let cache' := aset key entry m2.cache
  { m2 with
    cache := cache',
    stats := { m2.stats with
      total_entries := cache'.length,
      total_size_bytes := m2.stats.total_size_bytes + size,
      per_type_stats := incPerType m2.stats.per_type_stats ct size } }

/-- `CacheManager::update_ttl_config` of the core variant: validate,
write the config file, and only then swap the in-memory config and
re-stamp every resident entry's TTL.  `fileWriteOk` is the outcome of
the config-file write. -/
def CacheManager.update_ttl_config (m : CacheManager) (new_config : CacheTtlConfig)
    (fileWriteOk : Bool) : Except String Unit × CacheManager :=
  match validate_ttl_config new_config with
  | Except.error e => (Except.error e, m)
  | Except.ok _ =>
    if fileWriteOk then
      (Except.ok (),
       { m with
         cfgFile := some new_config,
         ttl_config := new_config,
         cache := m.cache.map (fun p =>
           (p.1, { p.2 with ttl_ms := ttl_for_type p.2.cache_type new_config })) })
    else (Except.error "Failed to write TTL config", m)

/-- The entry freshly constructed by `CacheManager::set` from the current
config, the payload, and the clock. -/
def mkSetEntry (m : CacheManager) (key : String) (data : List Nat)
    (ct : CacheType) (now_ms : Nat) : CacheEntry :=
  { key := key, data := data, created_at_ms := now_ms, access_count := 0,
    last_accessed_ms := now_ms, size_bytes := data.length, cache_type := ct,
    ttl_ms := ttl_for_type ct m.ttl_config }

end CoreCache

theorem alookup_aremove_self (k : String) (l : List (String × α)) :
    alookup k (aremove k l) = none := by
  induction l with
  | nil => rfl
  | cons p rest ih =>
    by_cases h : p.1 = k <;> simp [aremove, alookup, h, ih]


theorem alookup_aremove_ne (k k' : String) (l : List (String × α)) (h : k' ≠ k) :
    alookup k' (aremove k l) = alookup k' l := by
  induction l with
  | nil => rfl
  | cons p rest ih =>
    by_cases hp : p.1 = k
    · have hne : ¬ p.1 = k' := by
        rw [hp]; exact fun hc => h hc.symm
      rw [aremove, if_pos hp, ih, alookup, if_neg hne]
    · rw [aremove, if_neg hp, alookup, alookup]
      by_cases hq : p.1 = k'
      · rw [if_pos hq, if_pos hq]
      · rw [if_neg hq, if_neg hq, ih]

theorem alookup_aset_self (k : String) (v : α) (l : List (String × α)) :
    alookup k (aset k v l) = some v := by
  simp [aset, alookup]

theorem alookup_aset_ne (k k' : String) (v : α) (l : List (String × α)) (h : k' ≠ k) :
    alookup k' (aset k v l) = alookup k' l := by
  have : k ≠ k' := fun hc => h hc.symm
  simp [aset, alookup, this, alookup_aremove_ne k k' l h]

theorem aremove_eq_self_of_alookup_none (k : String) (l : List (String × α))
    (h : alookup k l = none) : aremove k l = l := by
  induction l with
  | nil => rfl
  | cons p rest ih =>
    by_cases hp : p.1 = k
    · simp [alookup, hp] at h
    · simp [alookup, hp] at h
      simp [aremove, hp, ih h]

theorem not_mem_akeys_aremove (k : String) (l : List (String × α)) :
    k ∉ akeys (aremove k l) := by
  induction l with
  | nil => simp [aremove, akeys]
  | cons p rest ih =>
    by_cases hp : p.1 = k
    · simpa [aremove, hp] using ih
    · simp [aremove, hp, akeys] at ih ⊢
      exact ⟨fun hc => hp hc.symm, ih⟩

theorem akeys_aremove_subset (k : String) (l : List (String × α)) :
    akeys (aremove k l) ⊆ akeys l := by
  induction l with
  | nil => simp [aremove, akeys]
  | cons p rest ih =>
    intro x hx
    by_cases hp : p.1 = k
    · rw [aremove, if_pos hp] at hx
      exact List.mem_cons_of_mem _ (ih hx)
    · rw [aremove, if_neg hp] at hx
      simp only [akeys, List.map_cons, List.mem_cons] at hx ⊢
      rcases hx with hx | hx
      · exact Or.inl hx
      · exact Or.inr (ih hx)

theorem nodup_akeys_aremove (k : String) (l : List (String × α))
    (h : (akeys l).Nodup) : (akeys (aremove k l)).Nodup := by
  induction l with
  | nil => simp [aremove, akeys]
  | cons p rest ih =>
    simp only [akeys, List.map_cons, List.nodup_cons] at h
    by_cases hp : p.1 = k
    · rw [aremove, if_pos hp]
      exact ih h.2
    · rw [aremove, if_neg hp]
      simp only [akeys, List.map_cons, List.nodup_cons]
      exact ⟨fun hc => h.1 (akeys_aremove_subset k rest hc), ih h.2⟩

theorem nodup_akeys_aset (k : String) (v : α) (l : List (String × α))
    (h : (akeys l).Nodup) : (akeys (aset k v l)).Nodup := by
  simp only [aset, akeys, List.map_cons, List.nodup_cons]
  exact ⟨not_mem_akeys_aremove k l, nodup_akeys_aremove k l h⟩

theorem mem_sinsert_iff (k x : String) (l : List String) :
    x ∈ sinsert k l ↔ x = k ∨ x ∈ l := by
  by_cases h : k ∈ l
  · simp only [sinsert, if_pos h]
    constructor
    · exact Or.inr
    · rintro (rfl | hx)
      · exact h
      · exact hx
  · simp [sinsert, if_neg h]

theorem mem_sremove_iff (k x : String) (l : List String) :
    x ∈ sremove k l ↔ x ∈ l ∧ x ≠ k := by
  induction l with
  | nil => simp [sremove]
  | cons y rest ih =>
    by_cases hy : y = k
    · rw [sremove, if_pos hy, ih, List.mem_cons]
      subst hy
      constructor
      · rintro ⟨hx, hne⟩; exact ⟨Or.inr hx, hne⟩
      · rintro ⟨hx | hx, hne⟩
        · exact absurd hx hne
        · exact ⟨hx, hne⟩
    · rw [sremove, if_neg hy, List.mem_cons, List.mem_cons, ih]
      constructor
      · rintro (rfl | ⟨hx, hne⟩)
        · exact ⟨Or.inl rfl, hy⟩
        · exact ⟨Or.inr hx, hne⟩
      · rintro ⟨hx | hx, hne⟩
        · exact Or.inl hx
        · exact Or.inr ⟨hx, hne⟩


namespace DataCache

theorem withLayer_layers_self (m : CacheManager) (ct : CacheType) (l : CacheLayer) :
    (m.withLayer ct l).layers ct = l := by
  simp [CacheManager.withLayer]

theorem withLayer_layers_ne (m : CacheManager) (ct ct' : CacheType) (l : CacheLayer)
    (h : ct' ≠ ct) : (m.withLayer ct l).layers ct' = m.layers ct' := by
  simp [CacheManager.withLayer, h]

theorem record_usage_layers (m : CacheManager) (ct : CacheType) (k : String) :
    (m.record_usage ct k).layers = m.layers := rfl

theorem record_usage_ttl_config (m : CacheManager) (ct : CacheType) (k : String) :
    (m.record_usage ct k).ttl_config = m.ttl_config := rfl

theorem insert_hasDisk (l : CacheLayer) (k : String) (v : CacheValue)
    (ttl : Option Nat) (now : Nat) : (l.insert k v ttl now).hasDisk = l.hasDisk := rfl

theorem setBytes_layers_mem (m : CacheManager) (ct : CacheType) (k : String)
    (bytes : List Nat) (now : Nat) (dOk : Bool) :
    ((m.setBytes ct k bytes now dOk).2.layers ct).mem =
      aset k { value := CacheValue.new bytes, insertedAt := now,
               ttl := m.ttl_config.ttl_for ct } (m.layers ct).mem := by
  cases hD : (m.layers ct).hasDisk <;> cases dOk <;>
    simp [CacheManager.setBytes, CacheManager.withLayer, CacheManager.record_usage,
          CacheLayer.insert, hD]

/-- Every statistics report enumerates the four categories, in
`CacheType::ALL` order, regardless of the manager state. -/
theorem statistics_per_type_names (m : CacheManager) :
    (m.statistics).per_type.map (fun s => s.cache_type) =
      ["price", "token_metadata", "historical", "user_settings"] := rfl

/-- C5: every statistics report contains exactly one per-category summary
for each of the four cache categories (price, token_metadata,
historical, user_settings), in every reachable state, including before
any operation has touched a category. -/
theorem C5_statistics_enumerates_all_categories (enableL2 : Bool) (ops : List MOp) :
    ((run enableL2 ops).statistics).per_type.map (fun s => s.cache_type) =
      ["price", "token_metadata", "historical", "user_settings"] :=
  statistics_per_type_names (run enableL2 ops)

/-- C1: for every cache category and key, a `get` of that key performed
after a `set` of the same key, within the TTL configured for that
category and with no intervening operation, returns the value that was
set, via the serialize-then-deserialize round trip through the
manager. -/
theorem C1_get_after_set_roundtrip {α : Type} (enc : α → List Nat)
    (dec : List Nat → Option α) (m : CacheManager) (ct : CacheType) (k : String)
    (v : α) (t t' : Nat) (dOk : Bool)
    (hrt : dec (enc v) = some v)
    (httl : ∀ d, m.ttl_config.ttl_for ct = some d → t' < t + d) :
    ((m.set enc ct k v t dOk).2.get dec ct k t').1 = Except.ok (some v) := by
  have hmem := setBytes_layers_mem m ct k (enc v) t dOk
  have hvis : MemEntry.visible
      { value := CacheValue.new (enc v), insertedAt := t,
        ttl := m.ttl_config.ttl_for ct } t' = true := by
    unfold MemEntry.visible
    cases hcfg : m.ttl_config.ttl_for ct with
    | none => rfl
    | some d => simpa using httl d hcfg
  simp only [CacheValue.new] at hvis
  simp only [CacheManager.set] at *
  simp only [CacheManager.get, CacheManager.getBytes, CacheLayer.getMem, hmem,
    alookup_aset_self, CacheValue.new, hvis, if_true, hrt]

/-- Witness for C1 at concrete inputs: on a fresh manager with the
default TTL config, setting `5` under category `price` at time `0` and
reading it back at time `0` returns `5`. -/
theorem C1_get_after_set_roundtrip_witness :
    (((CacheManager.init true).set (fun n : Nat => [n]) CacheType.price "SOL" 5 0
        true).2.get (fun l => l.head?) CacheType.price "SOL" 0).1 =
      Except.ok (some 5) :=
  C1_get_after_set_roundtrip (fun n : Nat => [n]) (fun l => l.head?)
    (CacheManager.init true) CacheType.price "SOL" 5 0 0 true rfl
    (by intro d hd; cases hd; decide)

/-- A proposed TTL config whose `price` TTL lies far above any reading of
the absolute bound `MAX_TTL_MS` (seven days). -/
def badTTLConfig : CacheTTLConfig :=
  { price := some 1000000000, token_metadata := some 3600,
    historical := some 86400, user_settings := none }

/-- A proposed TTL config whose bounded TTLs all lie within the absolute
bounds. -/
def newTTLConfig : CacheTTLConfig :=
  { price := some 3600, token_metadata := some 3600,
    historical := some 86400, user_settings := none }

/-- C2 counterexample: the data variant's `update_ttl_config` performs no
validation.  A proposed config whose `price` TTL (10^9 seconds) lies far
outside `[MIN_TTL, MAX_TTL]` is accepted: the call returns `Ok` and both
the in-memory config and the persisted config file take the new values
instead of retaining the previous ones. -/
theorem C2_counterexample :
    badTTLConfig.price = some 1000000000 ∧
      1000000000 * 1000 > CoreCache.MAX_TTL_MS ∧
      ((CacheManager.init true).update_ttl_config badTTLConfig true).1 =
        Except.ok () ∧
      ((CacheManager.init true).update_ttl_config badTTLConfig true).2.ttl_config =
        badTTLConfig ∧
      ((CacheManager.init true).update_ttl_config badTTLConfig true).2.cfgFile =
        some badTTLConfig := by
  refine ⟨rfl, by decide, rfl, rfl, rfl⟩

/-- C3 counterexample: after a successful `update_ttl_config` of the data
variant with a valid config, an already-resident entry still carries the
TTL it was stamped with at insert (1 second), not the new config's TTL
for its category (3600 seconds); moreover, when the config-file write
fails the in-memory config has already been swapped, so persistence does
not precede the swap. -/
theorem C3_counterexample :
    ((run false [MOp.set CacheType.price "k" [7] 0 true]).update_ttl_config
        newTTLConfig true).1 = Except.ok () ∧
      (alookup "k"
          (((run false [MOp.set CacheType.price "k" [7] 0 true]).update_ttl_config
              newTTLConfig true).2.layers CacheType.price).mem).map
          (fun e => e.ttl) = some (some 1) ∧
      newTTLConfig.ttl_for CacheType.price = some 3600 ∧
      (some 1 : Option Nat) ≠ some 3600 ∧
      ((run false [MOp.set CacheType.price "k" [7] 0 true]).update_ttl_config
          newTTLConfig false).2.ttl_config = newTTLConfig ∧
      ((run false [MOp.set CacheType.price "k" [7] 0 true]).update_ttl_config
          newTTLConfig false).2.cfgFile = some CacheTTLConfig.default := by
  refine ⟨rfl, by decide, rfl, by decide, rfl, rfl⟩

/-- Guard flip between the source's `total > 0` test and the claim's
`total = 0` phrasing. -/
theorem rate_if_flip (a b : Nat) (x : ℚ) :
    (if a + b > 0 then x else 0) = if a + b = 0 then 0 else x := by
  by_cases h : a + b = 0
  · rw [if_neg (by omega), if_pos h]
  · rw [if_pos (Nat.pos_of_ne_zero h), if_neg h]

/-- The snapshot hit rate is the percentage
`100 * hits / (hits + misses)`, and `0` when no requests occurred. -/
theorem snapshot_hit_rate (l : CacheLayer) (ct : CacheType) :
    (l.snapshot ct).hit_rate =
      if (l.snapshot ct).hits + (l.snapshot ct).misses = 0 then 0
      else (((l.snapshot ct).hits : ℚ) /
          (((l.snapshot ct).hits + (l.snapshot ct).misses : Nat) : ℚ)) * 100 :=
  rate_if_flip l.stats.hits l.stats.misses _

/-- C4 counterexample: a reachable statistics report (one `set` followed
by one hit) carries a price summary with `hits = 1`, `misses = 0` and
`hit_rate = 100`, while `hits / (hits + misses) = 1`; the reported rate
is a percentage, not the claimed ratio. -/
theorem C4_counterexample :
    (((run false [MOp.set CacheType.price "k" [7] 0 true,
          MOp.get CacheType.price "k" 0]).statistics).per_type.head?.map
        (fun s => (s.hits, s.misses))) = some (1, 0) ∧
      (((run false [MOp.set CacheType.price "k" [7] 0 true,
          MOp.get CacheType.price "k" 0]).statistics).per_type.head?.map
        (fun s => s.hit_rate)) = some 100 ∧
      (100 : ℚ) ≠ (1 : ℚ) / ((1 : ℚ) + 0) := by
  have h1 : ((run false [MOp.set CacheType.price "k" [7] 0 true,
      MOp.get CacheType.price "k" 0]).layers CacheType.price).stats.hits = 1 := by
    decide
  have h2 : ((run false [MOp.set CacheType.price "k" [7] 0 true,
      MOp.get CacheType.price "k" 0]).layers CacheType.price).stats.misses = 0 := by
    decide
  have hhead : (((run false [MOp.set CacheType.price "k" [7] 0 true,
      MOp.get CacheType.price "k" 0]).statistics).per_type.head?) =
        some (((run false [MOp.set CacheType.price "k" [7] 0 true,
          MOp.get CacheType.price "k" 0]).layers CacheType.price).snapshot
            CacheType.price) := rfl
  refine ⟨?_, ?_, by norm_num⟩
  · rw [hhead]
    simp [CacheLayer.snapshot, h1, h2]
  · rw [hhead]
    simp only [Option.map_some', Option.some.injEq, CacheLayer.snapshot, h1, h2]
    norm_num

/-- C4 as amended: in every statistics report, for each per-category
summary and for the aggregate, the reported hit rate equals
`100 * hits / (hits + misses)  `— the hit ratio expressed as a
percentage — and equals `0` whenever `hits + misses = 0`. -/
theorem C4_hit_rate_percentage (m : CacheManager) :
    (∀ s ∈ (m.statistics).per_type,
        s.hit_rate = if s.hits + s.misses = 0 then 0
          else ((s.hits : ℚ) / ((s.hits + s.misses : Nat) : ℚ)) * 100) ∧
      (m.statistics).total_hit_rate =
        (if (m.statistics).total_hits + (m.statistics).total_misses = 0 then 0
         else (((m.statistics).total_hits : ℚ) /
             (((m.statistics).total_hits + (m.statistics).total_misses : Nat) : ℚ)) * 100) := by
  constructor
  · intro s hs
    simp only [CacheManager.statistics, CacheType.ALL, List.map_cons, List.map_nil,
      List.mem_cons, List.not_mem_nil, or_false] at hs
    rcases hs with rfl | rfl | rfl | rfl <;> exact snapshot_hit_rate _ _
  · exact rate_if_flip (m.statistics).total_hits (m.statistics).total_misses _

/-- Witness for C4 at a concrete input: the price summary of a fresh
manager's report satisfies the percentage formula (here `0`). -/
theorem C4_hit_rate_percentage_witness :
    (((CacheManager.init false).statistics).per_type.head?.map
        (fun s => s.hit_rate)) = some 0 ∧
      (((CacheManager.init false).layers CacheType.price).snapshot
          CacheType.price).hit_rate =
        (if (((CacheManager.init false).layers CacheType.price).snapshot
              CacheType.price).hits +
            (((CacheManager.init false).layers CacheType.price).snapshot
              CacheType.price).misses = 0 then 0
         else (((((CacheManager.init false).layers CacheType.price).snapshot
               CacheType.price).hits : ℚ) /
             (((((CacheManager.init false).layers CacheType.price).snapshot
                   CacheType.price).hits +
                 (((CacheManager.init false).layers CacheType.price).snapshot
                   CacheType.price).misses : Nat) : ℚ)) * 100) :=
  ⟨by decide,
   (C4_hit_rate_percentage (CacheManager.init false)).1 _ (by decide)⟩

theorem insert_disk (l : CacheLayer) (k : String) (v : CacheValue)
    (ttl : Option Nat) (now : Nat) : (l.insert k v ttl now).disk = l.disk := rfl

theorem listenerFire_mem (l : CacheLayer) (k : String) (sz : Nat) :
    (l.listenerFire k sz).mem = l.mem := rfl

theorem listenerFire_disk (l : CacheLayer) (k : String) (sz : Nat) :
    (l.listenerFire k sz).disk = l.disk := rfl

theorem listenerFire_hasDisk (l : CacheLayer) (k : String) (sz : Nat) :
    (l.listenerFire k sz).hasDisk = l.hasDisk := rfl

/-- Full layer shape after a successful `set` when the disk tier is
enabled: the memory entry is stamped with the current TTL and the disk
record carries the corresponding absolute expiry. -/
theorem setBytes_layers_disk_enabled (m : CacheManager) (ct : CacheType)
    (k : String) (bytes : List Nat) (now : Nat)
    (hdisk : (m.layers ct).hasDisk = true) :
    ((m.setBytes ct k bytes now true).2.layers ct).mem =
        aset k { value := CacheValue.new bytes, insertedAt := now,
                 ttl := m.ttl_config.ttl_for ct } (m.layers ct).mem ∧
      ((m.setBytes ct k bytes now true).2.layers ct).disk =
        aset k { value := bytes,
                 expires_at := (m.ttl_config.ttl_for ct).map (fun d => now + d) }
          (m.layers ct).disk ∧
      ((m.setBytes ct k bytes now true).2.layers ct).hasDisk = true := by
  refine ⟨setBytes_layers_mem m ct k bytes now true, ?_, ?_⟩ <;>
    simp [CacheManager.setBytes, CacheManager.withLayer, CacheManager.record_usage,
      CacheLayer.insert, hdisk]

/-- A key absent from both tiers yields `None` from `get`. -/
theorem getBytes_none_of_absent (m : CacheManager) (ct : CacheType)
    (k : String) (t : Nat)
    (hm : alookup k (m.layers ct).mem = none)
    (hd : alookup k (m.layers ct).disk = none) :
    (m.getBytes ct k t).1 = none := by
  cases hD : (m.layers ct).hasDisk <;>
    simp [CacheManager.getBytes, CacheLayer.getMem, hm, hd, hD]

/-- A `get` that finds an expired memory entry and an expired disk record
returns `None` and leaves the key absent from both tiers. -/
theorem getBytes_expired (m : CacheManager) (ct : CacheType) (k : String)
    (t : Nat) (e : MemEntry) (rec : DiskRecord) (x : Nat)
    (hm : alookup k (m.layers ct).mem = some e)
    (hv : e.visible t = false)
    (hd : (m.layers ct).hasDisk = true)
    (hr : alookup k (m.layers ct).disk = some rec)
    (hxe : rec.expires_at = some x) (hxt : x ≤ t) :
    (m.getBytes ct k t).1 = none ∧
      alookup k ((m.getBytes ct k t).2.layers ct).mem = none ∧
      alookup k ((m.getBytes ct k t).2.layers ct).disk = none ∧
      ((m.getBytes ct k t).2.layers ct).hasDisk = true := by
  simp only [CacheManager.getBytes, CacheLayer.getMem, hm, hv, Bool.false_eq_true,
    if_false, CacheLayer.listenerFire, hd, hr, hxe, if_pos hxt, if_true]
  refine ⟨trivial, ?_, ?_, ?_⟩ <;>
    simp [CacheManager.withLayer, alookup_aremove_self]

/-- C6: for every key set with a bounded TTL while the disk tier is
enabled, a `get` issued after that TTL has elapsed returns `None` and
removes the entry from both the memory tier and the disk tier, and a
subsequent `get` of the same key (with no intervening `set`) also
returns `None` — the entry is never resurrected. -/
theorem C6_expired_get_purges_both_tiers (m : CacheManager) (ct : CacheType)
    (k : String) (bytes : List Nat) (d t0 t1 t2 : Nat)
    (hdisk : (m.layers ct).hasDisk = true)
    (httl : m.ttl_config.ttl_for ct = some d)
    (h1 : t0 + d ≤ t1) (h2 : t1 ≤ t2) :
    ((m.setBytes ct k bytes t0 true).2.getBytes ct k t1).1 = none ∧
      alookup k ((((m.setBytes ct k bytes t0 true).2.getBytes ct k t1).2.layers
          ct).mem) = none ∧
      alookup k ((((m.setBytes ct k bytes t0 true).2.getBytes ct k t1).2.layers
          ct).disk) = none ∧
      ((((m.setBytes ct k bytes t0 true).2.getBytes ct k t1).2.getBytes ct k
          t2).1) = none := by
  obtain ⟨hmem, hdsk, hhas⟩ := setBytes_layers_disk_enabled m ct k bytes t0 hdisk
  have hm1 : alookup k ((m.setBytes ct k bytes t0 true).2.layers ct).mem =
      some { value := CacheValue.new bytes, insertedAt := t0,
             ttl := m.ttl_config.ttl_for ct } := by
    rw [hmem, alookup_aset_self]
  have hr1 : alookup k ((m.setBytes ct k bytes t0 true).2.layers ct).disk =
      some { value := bytes,
             expires_at := (m.ttl_config.ttl_for ct).map (fun dd => t0 + dd) } := by
    rw [hdsk, alookup_aset_self]
  have hv : MemEntry.visible
      { value := CacheValue.new bytes, insertedAt := t0,
        ttl := m.ttl_config.ttl_for ct } t1 = false := by
    unfold MemEntry.visible
    rw [httl]
    simp only [decide_eq_false_iff_not, not_lt]
    exact h1
  have hxe : Option.map (fun dd => t0 + dd) (m.ttl_config.ttl_for ct) =
      some (t0 + d) := by
    rw [httl]
    rfl
  obtain ⟨hg1, hg2, hg3, hg4⟩ := getBytes_expired
    (m.setBytes ct k bytes t0 true).2 ct k t1
    { value := CacheValue.new bytes, insertedAt := t0,
      ttl := m.ttl_config.ttl_for ct }
    { value := bytes, expires_at := (m.ttl_config.ttl_for ct).map (fun dd => t0 + dd) }
    (t0 + d) hm1 hv hhas hr1 hxe h1
  exact ⟨hg1, hg2, hg3, getBytes_none_of_absent _ ct k t2 hg2 hg3⟩

/-- Witness for C6 at concrete inputs: `price` (TTL 1s) set at `t = 0`
with the disk tier enabled, read at `t = 1` and again at `t = 2`. -/
theorem C6_expired_get_purges_both_tiers_witness :
    (((CacheManager.init true).setBytes CacheType.price "SOL" [7] 0
        true).2.getBytes CacheType.price "SOL" 1).1 = none ∧
      alookup "SOL" (((((CacheManager.init true).setBytes CacheType.price "SOL"
          [7] 0 true).2.getBytes CacheType.price "SOL" 1).2.layers
          CacheType.price).mem) = none ∧
      alookup "SOL" (((((CacheManager.init true).setBytes CacheType.price "SOL"
          [7] 0 true).2.getBytes CacheType.price "SOL" 1).2.layers
          CacheType.price).disk) = none ∧
      (((((CacheManager.init true).setBytes CacheType.price "SOL" [7] 0
          true).2.getBytes CacheType.price "SOL" 1).2.getBytes CacheType.price
          "SOL" 2).1) = none :=
  C6_expired_get_purges_both_tiers (CacheManager.init true) CacheType.price
    "SOL" [7] 1 0 1 2 rfl rfl (by decide) (by decide)

/-- A `set` whose awaited disk write succeeds returns `Ok`. -/
theorem setBytes_ok (m : CacheManager) (ct : CacheType) (k : String)
    (bytes : List Nat) (now : Nat) :
    (m.setBytes ct k bytes now true).1 = Except.ok () := by
  cases hD : (m.layers ct).hasDisk <;>
    simp [CacheManager.setBytes, CacheLayer.insert, hD]

/-- `set` does not touch the warming progress. -/
theorem setBytes_warming (m : CacheManager) (ct : CacheType) (k : String)
    (bytes : List Nat) (now : Nat) (dOk : Bool) :
    (m.setBytes ct k bytes now dOk).2.warming_state = m.warming_state := by
  cases hD : (m.layers ct).hasDisk <;> cases dOk <;>
    simp [CacheManager.setBytes, CacheManager.withLayer,
      CacheManager.record_usage, CacheLayer.insert, hD]

/-- When every per-item disk write succeeds, the warming loop processes
every request, ends with `in_progress` off and `completed_at` stamped,
and leaves `total_items` and `started_at` as the caller set them. -/
theorem warmLoop_all_ok (reqs : List WarmRequest) :
    ∀ (m : CacheManager) (idx now : Nat) (diskOk : Nat → Bool),
      (∀ i, diskOk i = true) →
      (m.warmLoop reqs idx now diskOk).1 = Except.ok () ∧
        (m.warmLoop reqs idx now diskOk).2.warming_state.in_progress = false ∧
        (m.warmLoop reqs idx now diskOk).2.warming_state.completed_at = some now ∧
        (m.warmLoop reqs idx now diskOk).2.warming_state.total_items =
          m.warming_state.total_items ∧
        (m.warmLoop reqs idx now diskOk).2.warming_state.started_at =
          m.warming_state.started_at ∧
        (m.warmLoop reqs idx now diskOk).2.warming_state.processed_items =
          (if reqs.isEmpty then m.warming_state.processed_items
           else idx + reqs.length) := by
  induction reqs with
  | nil =>
    intro m idx now diskOk hok
    simp [CacheManager.warmLoop]
  | cons r rest ih =>
    intro m idx now diskOk hok
    have hsplit : m.setBytes r.cache_type r.key
        (r.value.getD (placeholderBytes r.key r.cache_type)) now (diskOk idx) =
        (Except.ok (),
         (m.setBytes r.cache_type r.key
            (r.value.getD (placeholderBytes r.key r.cache_type)) now
            (diskOk idx)).2) := by
      rw [hok idx]
      exact Prod.ext_iff.mpr
        ⟨setBytes_ok m r.cache_type r.key
          (r.value.getD (placeholderBytes r.key r.cache_type)) now, rfl⟩
    rw [CacheManager.warmLoop, hsplit]
    obtain ⟨ih1, ih2, ih3, ih4, ih5, ih6⟩ := ih
      { (m.setBytes r.cache_type r.key
          (r.value.getD (placeholderBytes r.key r.cache_type)) now
          (diskOk idx)).2 with
        warming_state := { (m.setBytes r.cache_type r.key
            (r.value.getD (placeholderBytes r.key r.cache_type)) now
            (diskOk idx)).2.warming_state with processed_items := idx + 1 } }
      (idx + 1) now diskOk hok
    refine ⟨ih1, ih2, ih3, ?_, ?_, ?_⟩
    · rw [ih4]
      simp [setBytes_warming]
    · rw [ih5]
      simp [setBytes_warming]
    · rw [ih6]
      cases rest with
      | nil => simp
      | cons r2 rest2 => simp [List.length_cons]; omega

/-- C9 counterexample: a `warm_cache` over two requests whose per-item
disk writes fail returns the first item's error immediately, leaving
`in_progress` stuck on `true`, `processed_items = 0 ≠ 2` and
`completed_at` unset — the run does not end with
`processed == total == n`. -/
theorem C9_counterexample :
    (((CacheManager.init true).warm_cache
        [{ key := "a", cache_type := CacheType.price, value := some [1] },
         { key := "b", cache_type := CacheType.price, value := some [2] }] 5
        (fun _ => false)).1 = Except.error "Disk cache write error") ∧
      (((CacheManager.init true).warm_cache
          [{ key := "a", cache_type := CacheType.price, value := some [1] },
           { key := "b", cache_type := CacheType.price, value := some [2] }] 5
          (fun _ => false)).2.warming_state.in_progress = true) ∧
      (((CacheManager.init true).warm_cache
          [{ key := "a", cache_type := CacheType.price, value := some [1] },
           { key := "b", cache_type := CacheType.price, value := some [2] }] 5
          (fun _ => false)).2.warming_state.processed_items = 0) ∧
      (((CacheManager.init true).warm_cache
          [{ key := "a", cache_type := CacheType.price, value := some [1] },
           { key := "b", cache_type := CacheType.price, value := some [2] }] 5
          (fun _ => false)).2.warming_state.total_items = 2) ∧
      (((CacheManager.init true).warm_cache
          [{ key := "a", cache_type := CacheType.price, value := some [1] },
           { key := "b", cache_type := CacheType.price, value := some [2] }] 5
          (fun _ => false)).2.warming_state.completed_at = none) :=
  ⟨rfl, rfl, rfl, rfl, rfl⟩

/-- C9 as amended: for every non-empty request list whose per-item
writes all succeed, `warm_cache` terminates with
`processed == total == n`, `completed_at` set and `in_progress` off
(progress having been bumped after every item); a failed per-item write
instead aborts the run with that error, leaving `in_progress` on and
`completed_at` unset. -/
theorem C9_warm_cache_processes_all (m : CacheManager)
    (reqs : List WarmRequest) (now : Nat) (diskOk : Nat → Bool)
    (hne : reqs ≠ []) (hok : ∀ i, diskOk i = true) :
    (m.warm_cache reqs now diskOk).1 = Except.ok () ∧
      (m.warm_cache reqs now diskOk).2.warming_state.processed_items =
        reqs.length ∧
      (m.warm_cache reqs now diskOk).2.warming_state.total_items =
        reqs.length ∧
      (m.warm_cache reqs now diskOk).2.warming_state.completed_at = some now ∧
      (m.warm_cache reqs now diskOk).2.warming_state.in_progress = false := by
  cases reqs with
  | nil => exact absurd rfl hne
  | cons r rest =>
    unfold CacheManager.warm_cache
    obtain ⟨h1, h2, h3, h4, h5, h6⟩ := warmLoop_all_ok (r :: rest)
      { m with warming_state :=
        { started_at := some now, completed_at := none,
          total_items := (r :: rest).length, processed_items := 0,
          in_progress := true } } 0 now diskOk hok
    simp only [List.isEmpty_cons, Bool.false_eq_true, if_false]
    refine ⟨h1, ?_, ?_, h3, h2⟩
    · rw [h6]
      simp
    · rw [h4]

/-- Witness for C9 at a concrete input: warming one `price` request with
a succeeding write ends with `processed = total = 1`, a stamped
completion time, and `in_progress` off. -/
theorem C9_warm_cache_processes_all_witness :
    (((CacheManager.init true).warm_cache
        [{ key := "a", cache_type := CacheType.price, value := none }] 5
        (fun _ => true)).1 = Except.ok ()) ∧
      (((CacheManager.init true).warm_cache
          [{ key := "a", cache_type := CacheType.price, value := none }] 5
          (fun _ => true)).2.warming_state.processed_items = 1) ∧
      (((CacheManager.init true).warm_cache
          [{ key := "a", cache_type := CacheType.price, value := none }] 5
          (fun _ => true)).2.warming_state.total_items = 1) ∧
      (((CacheManager.init true).warm_cache
          [{ key := "a", cache_type := CacheType.price, value := none }] 5
          (fun _ => true)).2.warming_state.completed_at = some 5) ∧
      (((CacheManager.init true).warm_cache
          [{ key := "a", cache_type := CacheType.price, value := none }] 5
          (fun _ => true)).2.warming_state.in_progress = false) :=
  C9_warm_cache_processes_all (CacheManager.init true)
    [{ key := "a", cache_type := CacheType.price, value := none }] 5
    (fun _ => true) (by simp) (fun _ => rfl)

theorem memBytesZ_nonneg (mem : List (String × MemEntry)) : 0 ≤ memBytesZ mem := by
  induction mem with
  | nil => simp [memBytesZ]
  | cons p rest ih =>
    have : (0 : Int) ≤ (p.2.value.size : Int) := Int.ofNat_nonneg _
    simp only [memBytesZ, List.map_cons, List.sum_cons]
    exact add_nonneg this ih

theorem memBytesZ_cons (p : String × MemEntry) (rest : List (String × MemEntry)) :
    memBytesZ (p :: rest) = (p.2.value.size : Int) + memBytesZ rest := by
  simp [memBytesZ]

theorem alookup_none_of_not_mem_akeys (k : String) (l : List (String × α))
    (h : k ∉ akeys l) : alookup k l = none := by
  induction l with
  | nil => rfl
  | cons p rest ih =>
    simp only [akeys, List.map_cons, List.mem_cons, not_or] at h
    rw [alookup, if_neg (fun hc => h.1 hc.symm)]
    exact ih (by simpa [akeys] using h.2)

theorem memBytesZ_aremove (k : String) (mem : List (String × MemEntry))
    (h : (akeys mem).Nodup) :
    memBytesZ (aremove k mem) =
      memBytesZ mem - ((alookup k mem).elim 0 (fun e => (e.value.size : Int))) := by
  induction mem with
  | nil => simp [aremove, alookup, memBytesZ]
  | cons p rest ih =>
    simp only [akeys, List.map_cons, List.nodup_cons] at h
    by_cases hp : p.1 = k
    · have hnone : alookup k rest = none :=
        alookup_none_of_not_mem_akeys k rest (by rw [← hp]; exact h.1)
      rw [aremove, if_pos hp, aremove_eq_self_of_alookup_none k rest hnone,
        alookup, if_pos hp, memBytesZ_cons]
      simp
    · rw [aremove, if_neg hp, alookup, if_neg hp, memBytesZ_cons, memBytesZ_cons,
        ih h.2]
      ring

theorem memBytesZ_aset (k : String) (e : MemEntry)
    (mem : List (String × MemEntry)) :
    memBytesZ (aset k e mem) = (e.value.size : Int) + memBytesZ (aremove k mem) := by
  simp [aset, memBytesZ]

theorem satSub_exact (t : Int) (a : Nat) (rest : Int) (ht : t = a + rest)
    (hrest : 0 ≤ rest) : saturating_sub_atomic t a = rest := by
  unfold saturating_sub_atomic
  have hta : t - a = rest := by omega
  split_ifs with h1 h2
  · omega
  · omega
  · rw [hta]
    exact max_eq_right hrest

/-- A stats-only or disk-only update preserves the layer invariant. -/
theorem LayerInv_same_fields (l l' : CacheLayer) (hmem : l'.mem = l.mem)
    (hsz : l'.sizes = l.sizes) (hb : l'.stats.bytes = l.stats.bytes)
    (h : LayerInv l) : LayerInv l' := by
  obtain ⟨h1, h2, h3⟩ := h
  refine ⟨hmem ▸ h1, fun k => ?_, ?_⟩
  · rw [hsz, hmem]
    exact h2 k
  · rw [hb, hmem]
    exact h3

theorem LayerInv_insert (l : CacheLayer) (h : LayerInv l) (k : String)
    (v : CacheValue) (ttl : Option Nat) (now : Nat) :
    LayerInv (l.insert k v ttl now) := by
  obtain ⟨hnd, hsz, hb⟩ := h
  refine ⟨nodup_akeys_aset k _ l.mem hnd, fun k' => ?_, ?_⟩
  · show alookup k' (aset k v.size l.sizes) =
      (alookup k' (aset k { value := v, insertedAt := now, ttl := ttl } l.mem)).map
        (fun e => e.value.size)
    by_cases hk : k' = k
    · subst hk
      rw [alookup_aset_self, alookup_aset_self]
      rfl
    · rw [alookup_aset_ne k k' _ _ hk, alookup_aset_ne k k' _ _ hk]
      exact hsz k'
  · show l.stats.bytes +
        ((v.size : Int) - (((alookup k l.sizes).getD 0 : Nat) : Int)) =
      memBytesZ (aset k { value := v, insertedAt := now, ttl := ttl } l.mem)
    rw [memBytesZ_aset, memBytesZ_aremove k l.mem hnd, hsz k, hb]
    cases halook : alookup k l.mem with
    | none =>
      simp only [halook, Option.map_none', Option.getD_none, Option.elim_none]
      ring
    | some e =>
      simp only [halook, Option.map_some', Option.getD_some, Option.elim_some]
      ring

theorem LayerInv_listener_removed (l : CacheLayer) (k : String) (e : MemEntry)
    (h : LayerInv l) (halook : alookup k l.mem = some e) :
    LayerInv (CacheLayer.listenerFire { l with mem := aremove k l.mem } k
      e.value.size) := by
  obtain ⟨hnd, hsz, hb⟩ := h
  refine ⟨nodup_akeys_aremove k l.mem hnd, fun k' => ?_, ?_⟩
  · show alookup k' (aremove k l.sizes) =
      (alookup k' (aremove k l.mem)).map (fun e => e.value.size)
    by_cases hk : k' = k
    · subst hk
      rw [alookup_aremove_self, alookup_aremove_self]
      rfl
    · rw [alookup_aremove_ne k k' _ hk, alookup_aremove_ne k k' _ hk]
      exact hsz k'
  · show saturating_sub_atomic l.stats.bytes e.value.size =
      memBytesZ (aremove k l.mem)
    refine satSub_exact _ _ _ ?_ (memBytesZ_nonneg _)
    rw [memBytesZ_aremove k l.mem hnd, halook, hb]
    simp

theorem LayerInv_getMem (l : CacheLayer) (k : String) (now : Nat)
    (h : LayerInv l) : LayerInv (l.getMem k now).2 := by
  unfold CacheLayer.getMem
  cases halook : alookup k l.mem with
  | none => exact h
  | some e =>
    by_cases hv : e.visible now
    · simpa [halook, hv] using h
    · simp only [halook, hv, Bool.false_eq_true, if_false]
      exact LayerInv_listener_removed l k e h halook

theorem LayerInv_invalidate (l : CacheLayer) (h : LayerInv l) (k : String) :
    LayerInv (l.invalidate k) := by
  obtain ⟨hnd, hsz, hb⟩ := h
  refine ⟨nodup_akeys_aremove k l.mem hnd, fun k' => ?_, ?_⟩
  · show alookup k' (aremove k l.sizes) =
      (alookup k' (aremove k l.mem)).map (fun e => e.value.size)
    by_cases hk : k' = k
    · subst hk
      rw [alookup_aremove_self, alookup_aremove_self]
      rfl
    · rw [alookup_aremove_ne k k' _ hk, alookup_aremove_ne k k' _ hk]
      exact hsz k'
  · show (if (alookup k l.sizes).getD 0 > 0
        then saturating_sub_atomic l.stats.bytes ((alookup k l.sizes).getD 0)
        else l.stats.bytes) = memBytesZ (aremove k l.mem)
    rw [hsz k, memBytesZ_aremove k l.mem hnd]
    cases halook : alookup k l.mem with
    | none => simpa using hb
    | some e =>
      simp only [halook, Option.map_some', Option.getD_some, Option.elim_some]
      by_cases hz : e.value.size > 0
      · rw [if_pos hz]
        refine satSub_exact _ _ _ ?_ ?_
        · rw [hb]
          ring
        · have := memBytesZ_aremove k l.mem hnd
          rw [halook] at this
          simp only [Option.elim_some] at this
          rw [← this]
          exact memBytesZ_nonneg _
      · rw [if_neg hz]
        have hz0 : e.value.size = 0 := by omega
        rw [hb, hz0]
        simp

theorem LayerInv_clear (l : CacheLayer) : LayerInv l.clear := by
  refine ⟨by simp [CacheLayer.clear, akeys], fun k => rfl, rfl⟩

theorem LayerInv_evict (l : CacheLayer) (h : LayerInv l) (k : String) :
    LayerInv (l.evict k) := by
  unfold CacheLayer.evict
  cases halook : alookup k l.mem with
  | none => exact h
  | some e => exact LayerInv_listener_removed l k e h halook

theorem LayerInv_init (hasDisk : Bool) : LayerInv (CacheLayer.init hasDisk) :=
  ⟨by simp [CacheLayer.init, akeys], fun k => rfl, rfl⟩

theorem MInv_withLayer (m : CacheManager) (ct : CacheType) (l : CacheLayer)
    (hm : MInv m) (hl : LayerInv l) : MInv (m.withLayer ct l) := by
  intro ct'
  by_cases h : ct' = ct
  · rw [h, withLayer_layers_self]
    exact hl
  · rw [withLayer_layers_ne m ct ct' l h]
    exact hm ct'

theorem MInv_record_usage (m : CacheManager) (ct : CacheType) (k : String)
    (hm : MInv m) : MInv (m.record_usage ct k) :=
  fun ct' => hm ct'

theorem MInv_setBytes (m : CacheManager) (ct : CacheType) (k : String)
    (bytes : List Nat) (now : Nat) (dOk : Bool) (h : MInv m) :
    MInv (m.setBytes ct k bytes now dOk).2 := by
  have hIns : LayerInv ((m.layers ct).insert k (CacheValue.new bytes)
      (m.ttl_config.ttl_for ct) now) :=
    LayerInv_insert _ (h ct) _ _ _ _
  have hm1 : MInv ((m.withLayer ct ((m.layers ct).insert k (CacheValue.new bytes)
      (m.ttl_config.ttl_for ct) now)).record_usage ct k) :=
    MInv_record_usage _ _ _ (MInv_withLayer m ct _ h hIns)
  simp only [CacheManager.setBytes]
  split_ifs with h1 h2
  · exact MInv_withLayer _ ct _ hm1
      (LayerInv_same_fields _ _ rfl rfl rfl (hm1 ct))
  · exact hm1
  · exact hm1

theorem MInv_getBytes (m : CacheManager) (ct : CacheType) (k : String)
    (now : Nat) (h : MInv m) : MInv (m.getBytes ct k now).2 := by
  simp only [CacheManager.getBytes]
  rcases hgm : CacheLayer.getMem (m.layers ct) k now with ⟨res, l1⟩
  have hl1 : LayerInv l1 := by
    have h2 := LayerInv_getMem (m.layers ct) k now (h ct)
    rw [hgm] at h2
    exact h2
  cases res with
  | some v =>
    exact MInv_record_usage _ _ _
      (MInv_withLayer m ct _ h (LayerInv_same_fields _ _ rfl rfl rfl hl1))
  | none =>
    dsimp only
    have hl2 : LayerInv { l1 with stats := { l1.stats with
        misses := l1.stats.misses + 1 } } :=
      LayerInv_same_fields _ _ rfl rfl rfl hl1
    by_cases hD : l1.hasDisk
    · rw [if_pos hD]
      cases halook : alookup k l1.disk with
      | none =>
        dsimp only
        exact MInv_withLayer m ct _ h hl2
      | some record =>
        dsimp only
        cases hx : record.expires_at with
        | some expiry =>
          dsimp only
          by_cases hle : expiry ≤ now
          · rw [if_pos hle]
            exact MInv_withLayer m ct _ h
              (LayerInv_same_fields _ _ rfl rfl rfl hl2)
          · rw [if_neg hle]
            exact MInv_record_usage _ _ _ (MInv_withLayer m ct _ h
              (LayerInv_same_fields _ _ rfl rfl rfl
                (LayerInv_insert _ hl2 _ _ _ _)))
        | none =>
          dsimp only
          exact MInv_record_usage _ _ _ (MInv_withLayer m ct _ h
            (LayerInv_same_fields _ _ rfl rfl rfl
              (LayerInv_insert _ hl2 _ _ _ _)))
    · rw [if_neg hD]
      exact MInv_withLayer m ct _ h hl2

theorem LayerInv_foldl_invalidate (ks : List String) :
    ∀ l, LayerInv l → LayerInv (ks.foldl (fun l' k => l'.invalidate k) l) := by
  induction ks with
  | nil => exact fun l h => h
  | cons k ks ih => exact fun l h => ih _ (LayerInv_invalidate l h k)

theorem MInv_mstep (m : CacheManager) (op : MOp) (h : MInv m) :
    MInv (mstep m op) := by
  cases op with
  | set ct k bytes now diskOk => exact MInv_setBytes m ct k bytes now diskOk h
  | get ct k now => exact MInv_getBytes m ct k now h
  | invalidate ct k =>
    exact MInv_withLayer m ct _ h (LayerInv_invalidate _ (h ct) k)
  | invalidateMany ct ks =>
    exact MInv_withLayer m ct _ h (LayerInv_foldl_invalidate ks _ (h ct))
  | invalidateByPfx ct pfx =>
    exact MInv_withLayer m ct _ h (LayerInv_foldl_invalidate _ _ (h ct))
  | clearType ct =>
    exact fun ct' => (MInv_withLayer m ct _ h (LayerInv_clear _)) ct'
  | clearAll => exact fun ct' => LayerInv_clear _
  | evict ct k =>
    exact MInv_withLayer m ct _ h (LayerInv_evict _ (h ct) k)
  | warm reqs now diskOk =>
    show MInv (m.warm_cache reqs now diskOk).2
    unfold CacheManager.warm_cache
    by_cases hemp : reqs.isEmpty
    · rw [if_pos hemp]
      exact h
    · rw [if_neg hemp]
      have hloop : ∀ (rs : List WarmRequest) (idx : Nat) (m' : CacheManager),
          MInv m' → MInv (m'.warmLoop rs idx now diskOk).2 := by
        intro rs
        induction rs with
        | nil => exact fun idx m' hm' => hm'
        | cons r rest ih =>
          intro idx m' hm'
          rw [CacheManager.warmLoop]
          rcases hsb : m'.setBytes r.cache_type r.key
              (r.value.getD (placeholderBytes r.key r.cache_type)) now
              (diskOk idx) with ⟨r1, m1⟩
          have hm1 : MInv m1 := by
            have h2 := MInv_setBytes m' r.cache_type r.key
              (r.value.getD (placeholderBytes r.key r.cache_type)) now
              (diskOk idx) hm'
            rw [hsb] at h2
            exact h2
          cases r1 with
          | error e => exact hm1
          | ok u => exact ih (idx + 1) _ hm1
      exact hloop reqs 0 _ h
  | updateTTL cfg fileOk =>
    show MInv (m.update_ttl_config cfg fileOk).2
    unfold CacheManager.update_ttl_config
    by_cases hf : fileOk
    · rw [if_pos hf]
      exact fun ct => h ct
    · rw [if_neg hf]
      exact fun ct => h ct

theorem MInv_run (enableL2 : Bool) (ops : List MOp) : MInv (run enableL2 ops) := by
  have hinit : MInv (CacheManager.init enableL2) :=
    fun ct => LayerInv_init enableL2
  have hfold : ∀ (os : List MOp) (m : CacheManager), MInv m →
      MInv (os.foldl mstep m) := by
    intro os
    induction os with
    | nil => exact fun m h => h
    | cons op rest ih => exact fun m h => ih _ (MInv_mstep m op h)
  exact hfold ops _ hinit

/-- C8: for every category, in every state reachable by any sequence of
operations (set, get, invalidate, prefix invalidation, clear, library
eviction, warming, config updates), the per-category byte counter is
non-negative and equals the sum of the sizes of the entries currently
resident in that category's memory tier. -/
theorem C8_byte_counter_matches_resident_bytes (enableL2 : Bool)
    (ops : List MOp) (ct : CacheType) :
    ((run enableL2 ops).layers ct).stats.bytes =
        memBytesZ ((run enableL2 ops).layers ct).mem ∧
      0 ≤ ((run enableL2 ops).layers ct).stats.bytes := by
  have h := (MInv_run enableL2 ops) ct
  refine ⟨h.2.2, ?_⟩
  rw [h.2.2]
  exact memBytesZ_nonneg _

theorem alookup_some_mem (k : String) (v : α) (l : List (String × α))
    (h : alookup k l = some v) : (k, v) ∈ l := by
  induction l with
  | nil => cases h
  | cons p rest ih =>
    by_cases hp : p.1 = k
    · rw [alookup, if_pos hp] at h
      have hv : p.2 = v := Option.some.inj h
      have : p = (k, v) := Prod.ext hp.symm.symm hv
      rw [← this]
      exact List.mem_cons_self _ _
    · rw [alookup, if_neg hp] at h
      exact List.mem_cons_of_mem _ (ih h)

theorem invalidate_mem (l : CacheLayer) (k : String) :
    (l.invalidate k).mem = aremove k l.mem := rfl

theorem invalidate_hasDisk (l : CacheLayer) (k : String) :
    (l.invalidate k).hasDisk = l.hasDisk := rfl

theorem invalidate_disk_enabled (l : CacheLayer) (k : String)
    (hd : l.hasDisk = true) : (l.invalidate k).disk = aremove k l.disk := by
  simp [CacheLayer.invalidate, hd]

theorem foldl_invalidate_hasDisk (ks : List String) :
    ∀ l : CacheLayer,
      (ks.foldl (fun l' k' => l'.invalidate k') l).hasDisk = l.hasDisk := by
  induction ks with
  | nil => exact fun l => rfl
  | cons k' ks ih => exact fun l => (ih _).trans rfl

theorem foldl_invalidate_mem (ks : List String) :
    ∀ (l : CacheLayer) (k : String),
      alookup k (ks.foldl (fun l' k' => l'.invalidate k') l).mem =
        if k ∈ ks then none else alookup k l.mem := by
  induction ks with
  | nil =>
    intro l k
    simp
  | cons k' ks ih =>
    intro l k
    rw [List.foldl_cons, ih]
    by_cases hk : k = k'
    · subst hk
      by_cases hmem : k ∈ ks
      · rw [if_pos hmem, if_pos (List.mem_cons_self _ _)]
      · rw [if_neg hmem, if_pos (List.mem_cons_self _ _), invalidate_mem]
        exact alookup_aremove_self k l.mem
    · by_cases hmem : k ∈ ks
      · rw [if_pos hmem, if_pos (List.mem_cons_of_mem _ hmem)]
      · rw [if_neg hmem, if_neg ?hnotin, invalidate_mem]
        · exact alookup_aremove_ne k' k l.mem hk
        case hnotin =>
          rw [List.mem_cons]
          rintro (rfl | hc)
          · exact hk rfl
          · exact hmem hc

theorem foldl_invalidate_disk (ks : List String) :
    ∀ (l : CacheLayer) (k : String), l.hasDisk = true →
      alookup k (ks.foldl (fun l' k' => l'.invalidate k') l).disk =
        if k ∈ ks then none else alookup k l.disk := by
  induction ks with
  | nil =>
    intro l k _
    simp
  | cons k' ks ih =>
    intro l k hd
    rw [List.foldl_cons, ih _ k ((invalidate_hasDisk l k').trans hd)]
    by_cases hk : k = k'
    · subst hk
      by_cases hmem : k ∈ ks
      · rw [if_pos hmem, if_pos (List.mem_cons_self _ _)]
      · rw [if_neg hmem, if_pos (List.mem_cons_self _ _),
          invalidate_disk_enabled l k hd]
        exact alookup_aremove_self k l.disk
    · by_cases hmem : k ∈ ks
      · rw [if_pos hmem, if_pos (List.mem_cons_of_mem _ hmem)]
      · rw [if_neg hmem, if_neg ?hnotin, invalidate_disk_enabled l k' hd]
        · exact alookup_aremove_ne k' k l.disk hk
        case hnotin =>
          rw [List.mem_cons]
          rintro (rfl | hc)
          · exact hk rfl
          · exact hmem hc

/-- A memory miss over a live disk record returns the record's payload
and promotes it into the memory tier, stamped with the current TTL. -/
theorem getBytes_promotes (m : CacheManager) (ct : CacheType) (k : String)
    (t : Nat) (rec : DiskRecord)
    (hm : alookup k (m.layers ct).mem = none)
    (hd : (m.layers ct).hasDisk = true)
    (hr : alookup k (m.layers ct).disk = some rec)
    (hlive : ∀ x, rec.expires_at = some x → t < x) :
    (m.getBytes ct k t).1 = some rec.value ∧
      alookup k ((m.getBytes ct k t).2.layers ct).mem =
        some { value := CacheValue.new rec.value, insertedAt := t,
               ttl := m.ttl_config.ttl_for ct } := by
  simp only [CacheManager.getBytes, CacheLayer.getMem, hm]
  rw [if_pos hd]
  rw [hr]
  dsimp only
  cases hx : rec.expires_at with
  | some x =>
    dsimp only
    rw [if_neg (by exact not_le.mpr (hlive x hx))]
    constructor
    · rfl
    · dsimp only
      rw [record_usage_layers, withLayer_layers_self]
      dsimp only [CacheLayer.insert]
      exact alookup_aset_self _ _ _
  | none =>
    dsimp only
    constructor
    · rfl
    · dsimp only
      rw [record_usage_layers, withLayer_layers_self]
      dsimp only [CacheLayer.insert]
      exact alookup_aset_self _ _ _

/-- C10: prefix invalidation removes exactly the matching keys that are
resident in the memory tier — every matching key is gone from memory
afterwards, non-matching keys are untouched — while a matching key whose
entry exists only in the disk tier (for example after memory eviction)
is not removed, and a later `get` promotes it back into memory. -/
theorem C10_pfx_invalidation_memory_only (m : CacheManager) (ct : CacheType)
    (pfx k2 : String) (rec : DiskRecord) (t : Nat)
    (hkeys : ∀ kk ∈ (m.layers ct).keys,
      (alookup kk (m.layers ct).mem).isSome = true)
    (hmemk : ∀ pk ∈ (m.layers ct).mem, pk.1 ∈ (m.layers ct).keys)
    (hk2mem : alookup k2 (m.layers ct).mem = none)
    (hk2disk : alookup k2 (m.layers ct).disk = some rec)
    (hk2pfx : strStartsWith pfx k2 = true)
    (hdisk : (m.layers ct).hasDisk = true)
    (hlive : ∀ x, rec.expires_at = some x → t < x) :
    (∀ kk, strStartsWith pfx kk = true →
        alookup kk ((m.invalidateByPfx ct pfx).layers ct).mem = none) ∧
      (∀ kk, strStartsWith pfx kk = false →
        alookup kk ((m.invalidateByPfx ct pfx).layers ct).mem =
          alookup kk (m.layers ct).mem) ∧
      alookup k2 ((m.invalidateByPfx ct pfx).layers ct).disk = some rec ∧
      ((m.invalidateByPfx ct pfx).getBytes ct k2 t).1 = some rec.value ∧
      alookup k2 (((m.invalidateByPfx ct pfx).getBytes ct k2 t).2.layers
          ct).mem =
        some { value := CacheValue.new rec.value, insertedAt := t,
               ttl := m.ttl_config.ttl_for ct } := by
  have hmem' : ∀ kk,
      alookup kk ((m.invalidateByPfx ct pfx).layers ct).mem =
        if kk ∈ (m.layers ct).keysWithPfx pfx then none
        else alookup kk (m.layers ct).mem := by
    intro kk
    simp only [CacheManager.invalidateByPfx, withLayer_layers_self]
    exact foldl_invalidate_mem _ _ kk
  have hdsk' : ∀ kk,
      alookup kk ((m.invalidateByPfx ct pfx).layers ct).disk =
        if kk ∈ (m.layers ct).keysWithPfx pfx then none
        else alookup kk (m.layers ct).disk := by
    intro kk
    simp only [CacheManager.invalidateByPfx, withLayer_layers_self]
    exact foldl_invalidate_disk _ _ kk hdisk
  have hk2notin : k2 ∉ (m.layers ct).keysWithPfx pfx := by
    intro hc
    have hin := (List.mem_filter.mp hc).1
    have := hkeys k2 hin
    rw [hk2mem] at this
    cases this
  have hmemafter : ∀ kk, strStartsWith pfx kk = true →
      alookup kk ((m.invalidateByPfx ct pfx).layers ct).mem = none := by
    intro kk hkk
    rw [hmem' kk]
    by_cases hin : kk ∈ (m.layers ct).keysWithPfx pfx
    · rw [if_pos hin]
    · rw [if_neg hin]
      cases hlk : alookup kk (m.layers ct).mem with
      | none => rfl
      | some e =>
        exfalso
        apply hin
        rw [CacheLayer.keysWithPfx, List.mem_filter]
        exact ⟨hmemk (kk, e) (alookup_some_mem kk e _ hlk), hkk⟩
  have hd2 : alookup k2 ((m.invalidateByPfx ct pfx).layers ct).disk =
      some rec := by
    rw [hdsk' k2, if_neg hk2notin]
    exact hk2disk
  have hhd : ((m.invalidateByPfx ct pfx).layers ct).hasDisk = true := by
    simp only [CacheManager.invalidateByPfx, withLayer_layers_self]
    rw [foldl_invalidate_hasDisk]
    exact hdisk
  have hm2 : alookup k2 ((m.invalidateByPfx ct pfx).layers ct).mem = none :=
    hmemafter k2 hk2pfx
  have httl : (m.invalidateByPfx ct pfx).ttl_config = m.ttl_config := rfl
  obtain ⟨hp1, hp2⟩ := getBytes_promotes (m.invalidateByPfx ct pfx) ct k2 t rec
    hm2 hhd hd2 hlive
  refine ⟨hmemafter, ?_, hd2, hp1, ?_⟩
  · intro kk hkk
    rw [hmem' kk]
    rw [if_neg ?hno]
    case hno =>
      intro hc
      have := (List.mem_filter.mp hc).2
      rw [hkk] at this
      cases this
  · rw [hp2, httl]

/-- Witness for C10 at concrete inputs: key `p:b` is set and then evicted
from memory (its disk record survives), key `p:a` is set; invalidating
prefix `p:` removes `p:a` but leaves `p:b` on disk, and a later `get`
of `p:b` returns its payload and promotes it into memory. -/
theorem C10_pfx_invalidation_memory_only_witness :
    alookup "p:a" (((run true [MOp.set CacheType.price "p:b" [2] 0 true,
        MOp.evict CacheType.price "p:b",
        MOp.set CacheType.price "p:a" [1] 0 true]).invalidateByPfx
        CacheType.price "p:").layers CacheType.price).mem = none ∧
      alookup "p:b" (((run true [MOp.set CacheType.price "p:b" [2] 0 true,
          MOp.evict CacheType.price "p:b",
          MOp.set CacheType.price "p:a" [1] 0 true]).invalidateByPfx
          CacheType.price "p:").layers CacheType.price).disk =
        some { value := [2], expires_at := some 1 } ∧
      (((run true [MOp.set CacheType.price "p:b" [2] 0 true,
          MOp.evict CacheType.price "p:b",
          MOp.set CacheType.price "p:a" [1] 0 true]).invalidateByPfx
          CacheType.price "p:").getBytes CacheType.price "p:b" 0).1 =
        some [2] ∧
      alookup "p:b" ((((run true [MOp.set CacheType.price "p:b" [2] 0 true,
          MOp.evict CacheType.price "p:b",
          MOp.set CacheType.price "p:a" [1] 0 true]).invalidateByPfx
          CacheType.price "p:").getBytes CacheType.price "p:b" 0).2.layers
          CacheType.price).mem =
        some { value := CacheValue.new [2], insertedAt := 0,
               ttl := some 1 } := by
  obtain ⟨h1, h2, h3, h4, h5⟩ := C10_pfx_invalidation_memory_only
    (run true [MOp.set CacheType.price "p:b" [2] 0 true,
      MOp.evict CacheType.price "p:b",
      MOp.set CacheType.price "p:a" [1] 0 true])
    CacheType.price "p:" "p:b" { value := [2], expires_at := some 1 } 0
    (by decide) (by decide) (by decide) (by decide) (by decide) (by decide)
    (by intro x hx; cases hx; decide)
  exact ⟨h1 "p:a" (by decide), h3, h4, h5⟩

end DataCache

namespace CoreCache

/-- A proposed config with at least one TTL outside the absolute bounds
fails validation. -/
theorem validate_ttl_config_error_of_bad (cfg : CacheTtlConfig)
    (hbad : cfg.prices < MIN_TTL_MS ∨ MAX_TTL_MS < cfg.prices ∨
        cfg.metadata < MIN_TTL_MS ∨ MAX_TTL_MS < cfg.metadata ∨
        cfg.history < MIN_TTL_MS ∨ MAX_TTL_MS < cfg.history) :
    ∃ e, validate_ttl_config cfg = Except.error e := by
  unfold validate_ttl_config
  split_ifs <;> first
    | exact ⟨_, rfl⟩
    | (exfalso; omega)

/-- C2 as amended: the all-or-nothing validation holds for the core
variant's `update_ttl_config`.  For every proposed config in which at
least one TTL lies outside `[MIN_TTL_MS, MAX_TTL_MS]`, the call returns
an error and the manager — its in-memory TTL config and its persisted
config file — is left unchanged. -/
theorem C2_core_update_ttl_config_all_or_nothing (m : CacheManager)
    (cfg : CacheTtlConfig) (fileOk : Bool)
    (hbad : cfg.prices < MIN_TTL_MS ∨ MAX_TTL_MS < cfg.prices ∨
        cfg.metadata < MIN_TTL_MS ∨ MAX_TTL_MS < cfg.metadata ∨
        cfg.history < MIN_TTL_MS ∨ MAX_TTL_MS < cfg.history) :
    (∃ e, (m.update_ttl_config cfg fileOk).1 = Except.error e) ∧
      (m.update_ttl_config cfg fileOk).2 = m := by
  obtain ⟨e, he⟩ := validate_ttl_config_error_of_bad cfg hbad
  unfold CacheManager.update_ttl_config
  rw [he]
  exact ⟨⟨e, rfl⟩, rfl⟩

/-- Witness for C2 at a concrete input: a `prices` TTL of `0` ms is
rejected and a fresh manager is unchanged. -/
theorem C2_core_update_ttl_config_all_or_nothing_witness :
    (∃ e, ((CacheManager.init 104857600 1000).update_ttl_config
        { prices := 0, metadata := 3600000, history := 86400000 } true).1 =
        Except.error e) ∧
      ((CacheManager.init 104857600 1000).update_ttl_config
        { prices := 0, metadata := 3600000, history := 86400000 } true).2 =
        CacheManager.init 104857600 1000 :=
  C2_core_update_ttl_config_all_or_nothing (CacheManager.init 104857600 1000)
    { prices := 0, metadata := 3600000, history := 86400000 } true
    (Or.inl (by decide))

/-- C3 as amended: in the core variant, a valid new config is persisted
to the config file before the in-memory config is swapped — a failed
file write leaves the manager, its in-memory config included, unchanged
— and after a successful update every entry already resident in memory
carries the new config's TTL for its category. -/
theorem C3_core_update_persists_then_restamps (m : CacheManager)
    (cfg : CacheTtlConfig) (fileOk : Bool)
    (hvalid : validate_ttl_config cfg = Except.ok ()) :
    (fileOk = false →
        (∃ e, (m.update_ttl_config cfg fileOk).1 = Except.error e) ∧
          (m.update_ttl_config cfg fileOk).2 = m) ∧
      (fileOk = true →
        (m.update_ttl_config cfg fileOk).1 = Except.ok () ∧
          (m.update_ttl_config cfg fileOk).2.cfgFile = some cfg ∧
          (m.update_ttl_config cfg fileOk).2.ttl_config = cfg ∧
          ∀ p ∈ (m.update_ttl_config cfg fileOk).2.cache,
            p.2.ttl_ms = ttl_for_type p.2.cache_type cfg) := by
  unfold CacheManager.update_ttl_config
  rw [hvalid]
  constructor
  · rintro rfl
    exact ⟨⟨_, rfl⟩, rfl⟩
  · rintro rfl
    refine ⟨rfl, rfl, rfl, ?_⟩
    intro p hp
    obtain ⟨q, _, hpq⟩ := List.mem_map.mp hp
    rw [← hpq]

/-- Witness for C3 at a concrete input: updating a fresh manager holding
one resident entry with the default (valid) config succeeds, rewrites
the file, swaps the config, and re-stamps the entry. -/
theorem C3_core_update_persists_then_restamps_witness :
    validate_ttl_config CacheTtlConfig.default = Except.ok () ∧
      (false = false →
        (∃ e, (((CacheManager.init 104857600 1000).set "k" [7]
            CacheType.tokenPrice 0).update_ttl_config CacheTtlConfig.default
            false).1 = Except.error e) ∧
          (((CacheManager.init 104857600 1000).set "k" [7]
              CacheType.tokenPrice 0).update_ttl_config CacheTtlConfig.default
              false).2 =
            (CacheManager.init 104857600 1000).set "k" [7] CacheType.tokenPrice 0) :=
  ⟨rfl,
   (C3_core_update_persists_then_restamps
      ((CacheManager.init 104857600 1000).set "k" [7] CacheType.tokenPrice 0)
      CacheTtlConfig.default false rfl).1⟩

/-- Specification of the `min_by_key` fold: starting from an
accumulator, the fold yields an element among the list and the
accumulator that minimizes the last-access time, preferring earlier
elements on ties. -/
theorem minByFoldAux (l : List (String × CacheEntry)) :
    ∀ q0 : String × CacheEntry,
      ∃ q, l.foldl
          (fun acc p =>
            match acc with
            | none => some p
            | some q' => if p.2.last_accessed_ms < q'.2.last_accessed_ms
                then some p else some q')
          (some q0) = some q ∧
        (q ∈ l ∨ q = q0) ∧
        q.2.last_accessed_ms ≤ q0.2.last_accessed_ms ∧
        ∀ p ∈ l, q.2.last_accessed_ms ≤ p.2.last_accessed_ms := by
  induction l with
  | nil =>
    intro q0
    exact ⟨q0, rfl, Or.inr rfl, le_refl _, by simp⟩
  | cons p rest ih =>
    intro q0
    by_cases h : p.2.last_accessed_ms < q0.2.last_accessed_ms
    · obtain ⟨q, hq, hmem, hle, hmin⟩ := ih p
      refine ⟨q, ?_, ?_, ?_, ?_⟩
      · rw [List.foldl_cons]
        simpa [h] using hq
      · rcases hmem with hm | rfl
        · exact Or.inl (List.mem_cons_of_mem _ hm)
        · exact Or.inl (List.mem_cons_self _ _)
      · exact le_trans hle (le_of_lt h)
      · intro p' hp'
        rcases List.mem_cons.mp hp' with rfl | hp'
        · exact hle
        · exact hmin p' hp'
    · obtain ⟨q, hq, hmem, hle, hmin⟩ := ih q0
      refine ⟨q, ?_, ?_, hle, ?_⟩
      · rw [List.foldl_cons]
        simpa [h] using hq
      · rcases hmem with hm | rfl
        · exact Or.inl (List.mem_cons_of_mem _ hm)
        · exact Or.inr rfl
      · intro p' hp'
        rcases List.mem_cons.mp hp' with rfl | hp'
        · exact le_trans hle (not_lt.mp h)
        · exact hmin p' hp'

/-- On a non-empty cache, `min_by_key` returns a resident entry whose
last-access time is minimal. -/
theorem minByLastAccess_spec (p : String × CacheEntry)
    (rest : List (String × CacheEntry)) :
    ∃ q, minByLastAccess (p :: rest) = some q ∧ q ∈ p :: rest ∧
      ∀ p' ∈ p :: rest, q.2.last_accessed_ms ≤ p'.2.last_accessed_ms := by
  obtain ⟨q, hq, hmem, hle, hmin⟩ := minByFoldAux rest p
  refine ⟨q, ?_, ?_, ?_⟩
  · rw [minByLastAccess, List.foldl_cons]
    exact hq
  · rcases hmem with hm | rfl
    · exact List.mem_cons_of_mem _ hm
    · exact List.mem_cons_self _ _
  · intro p' hp'
    rcases List.mem_cons.mp hp' with rfl | hp'
    · exact hle
    · exact hmin p' hp'

/-- C7 counterexample: on a manager built as `new(100, 1)` — a 100 MiB
byte cap and a one-entry cap — setting the same one-byte key twice
triggers an eviction on the second `set`: the pre-insert check
`cache.len() >= max_entries` counts the entry about to be replaced, so
the resident entry (the key itself) is evicted and re-inserted, even
though the completed insert — a same-key replacement — leaves the cache
within both caps (1 of 104857600 bytes, 1 of 1 entries).  Eviction does
not fire exactly when completing the insert would exceed a cap. -/
theorem C7_counterexample :
    (((CacheManager.init 100 1).set "a" [1] CacheType.tokenPrice 0).set "a"
        [2] CacheType.tokenPrice 1).stats.total_evictions = 1 ∧
      ((CacheManager.init 100 1).set "a" [1]
        CacheType.tokenPrice 0).stats.total_evictions = 0 ∧
      (((CacheManager.init 100 1).set "a" [1] CacheType.tokenPrice 0).set "a"
          [2] CacheType.tokenPrice 1).stats.total_size_bytes = 1 ∧
      (((CacheManager.init 100 1).set "a" [1] CacheType.tokenPrice 0).set "a"
          [2] CacheType.tokenPrice 1).cache.length = 1 ∧
      (((CacheManager.init 100 1).set "a" [1] CacheType.tokenPrice 0).set "a"
          [2] CacheType.tokenPrice 1).max_size_bytes = 104857600 ∧
      (((CacheManager.init 100 1).set "a" [1] CacheType.tokenPrice 0).set "a"
          [2] CacheType.tokenPrice 1).max_entries = 1 := by
  decide

/-- C7 as amended: on `set`, an eviction occurs iff the cache is
non-empty and the pre-insert figures exceed a cap — resident bytes plus
the incoming size exceed the byte cap, or the entry count is at least
the entry cap — with no credit for a same-key entry about to be
replaced.  When it occurs, exactly the entry with the minimal
last-access time among all resident entries is evicted (the first such
in iteration order), never any other; the rest of the cache is the old
cache with the evicted key removed and the new entry inserted. -/
theorem C7_core_set_evicts_lru_iff (m : CacheManager) (key : String)
    (data : List Nat) (ct : CacheType) (now : Nat) :
    ((m.set key data ct now).stats.total_evictions =
        m.stats.total_evictions +
          (if (m.stats.total_size_bytes + data.length > m.max_size_bytes ∨
                m.cache.length ≥ m.max_entries) ∧ m.cache ≠ []
           then 1 else 0)) ∧
      ((m.stats.total_size_bytes + data.length > m.max_size_bytes ∨
          m.cache.length ≥ m.max_entries) ∧ m.cache ≠ [] →
        ∃ q, minByLastAccess m.cache = some q ∧ q ∈ m.cache ∧
          (∀ p ∈ m.cache, q.2.last_accessed_ms ≤ p.2.last_accessed_ms) ∧
          (m.set key data ct now).cache =
            aset key (mkSetEntry m key data ct now) (aremove q.1 m.cache)) ∧
      (¬ ((m.stats.total_size_bytes + data.length > m.max_size_bytes ∨
            m.cache.length ≥ m.max_entries) ∧ m.cache ≠ []) →
        (m.set key data ct now).cache =
          aset key (mkSetEntry m key data ct now) m.cache) := by
  by_cases hcond : (m.stats.total_size_bytes + data.length > m.max_size_bytes ∨
      m.cache.length ≥ m.max_entries)
  · by_cases hnil : m.cache = []
    · have hev : m.evict_lru = m := by
        simp [CacheManager.evict_lru, hnil, minByLastAccess]
      have hfalse : ¬ ((m.stats.total_size_bytes + data.length > m.max_size_bytes ∨
          m.cache.length ≥ m.max_entries) ∧ m.cache ≠ []) := by
        rintro ⟨-, hne⟩
        exact hne hnil
      refine ⟨?_, fun hcon => absurd hcon hfalse, fun _ => ?_⟩ <;>
        cases halook : alookup key m.cache <;>
          simp [CacheManager.set, if_pos hcond, hev, halook, hfalse, mkSetEntry]
    · obtain ⟨p, rest, hcache⟩ := List.exists_cons_of_ne_nil hnil
      obtain ⟨q, hq, hqmem, hqmin⟩ := minByLastAccess_spec p rest
      have hq' : minByLastAccess m.cache = some q := by
        rw [hcache]
        exact hq
      have hev : m.evict_lru =
          { m with
            cache := aremove q.1 m.cache,
            stats := { m.stats with
              total_evictions := m.stats.total_evictions + 1,
              total_size_bytes := m.stats.total_size_bytes - q.2.size_bytes,
              total_entries := (aremove q.1 m.cache).length,
              per_type_stats := decPerType m.stats.per_type_stats
                q.2.cache_type q.2.size_bytes } } := by
        simp [CacheManager.evict_lru, hq']
      have htrue : (m.stats.total_size_bytes + data.length > m.max_size_bytes ∨
          m.cache.length ≥ m.max_entries) ∧ m.cache ≠ [] := ⟨hcond, hnil⟩
      refine ⟨?_, fun _ => ⟨q, hq', ?_, ?_, ?_⟩, fun hcon => absurd htrue hcon⟩
      · cases halook : alookup key (aremove q.1 m.cache) <;>
          simp [CacheManager.set, if_pos hcond, hev, halook, htrue]
      · rw [hcache]
        exact hqmem
      · rw [hcache]
        exact hqmin
      · cases halook : alookup key (aremove q.1 m.cache) <;>
          simp [CacheManager.set, if_pos hcond, hev, halook, mkSetEntry]
  · have hfalse : ¬ ((m.stats.total_size_bytes + data.length > m.max_size_bytes ∨
        m.cache.length ≥ m.max_entries) ∧ m.cache ≠ []) := by
      rintro ⟨hc, -⟩
      exact hcond hc
    refine ⟨?_, fun hcon => absurd hcon hfalse, fun _ => ?_⟩ <;>
      cases halook : alookup key m.cache <;>
        simp [CacheManager.set, if_neg hcond, halook, hfalse, mkSetEntry]

/-- Witness for C7 at a concrete input: inserting a second distinct key
into a single-entry cache already at its entry cap evicts exactly the
resident (least-recently-accessed) entry. -/
theorem C7_core_set_evicts_lru_iff_witness :
    (((CacheManager.init 1000 1).set "a" [1] CacheType.tokenPrice
        0).set "b" [2] CacheType.tokenPrice 1).stats.total_evictions =
      ((CacheManager.init 1000 1).set "a" [1] CacheType.tokenPrice
        0).stats.total_evictions +
        (if (((CacheManager.init 1000 1).set "a" [1] CacheType.tokenPrice
              0).stats.total_size_bytes + [2].length >
              ((CacheManager.init 1000 1).set "a" [1] CacheType.tokenPrice
                0).max_size_bytes ∨
            ((CacheManager.init 1000 1).set "a" [1] CacheType.tokenPrice
              0).cache.length ≥
              ((CacheManager.init 1000 1).set "a" [1] CacheType.tokenPrice
                0).max_entries) ∧
            ((CacheManager.init 1000 1).set "a" [1] CacheType.tokenPrice
              0).cache ≠ []
         then 1 else 0) :=
  (C7_core_set_evicts_lru_iff
    ((CacheManager.init 1000 1).set "a" [1] CacheType.tokenPrice 0)
    "b" [2] CacheType.tokenPrice 1).1

end CoreCache

end EclipseMarket
